import Mathlib

/-!
ECO Enterprise E-Commerce Platform — verification of the cache-aware
CRUD / cross-reference layer.

Shallow embedding of the entity services of the repository
(`BrandService`, `CampaignService`, `OfferService`, `ProductService`,
`CartService`) and of the helper functions they use.  Persistent stores
are modelled as lists of documents, the cache as an association list from
string keys to payloads, and each service operation as a pure function
mirroring the source's control flow statement by statement.  Fresh
MongoDB ObjectIds that the driver would generate are taken as explicit
parameters.  Asynchronous persistence calls are sequenced exactly as the
`await`s of the source; the ordered list of persistence/cache effects an
operation performs is returned alongside the new state where a claim
needs it.
-/

namespace EcoSpec

/-! ## Identifiers

`src/utils/is-valid-mongo-id.ts` is imported by every service but is not
part of the source snapshot; it is modelled from the spec below. -/

/-- Characters of a hexadecimal MongoDB ObjectId. -/
def isHexDigit (c : Char) : Bool :=
  c.isDigit || ('a' ≤ c && c ≤ 'f') || ('A' ≤ c && c ≤ 'F')

/-- Modelled from the spec: `src/utils/is-valid-mongo-id.ts` is missing from
the snapshot.  The spec calls ids validated here "well-formed identifiers";
a well-formed MongoDB ObjectId is a 24-character hexadecimal string. -/
def isValidMongoId (s : String) : Bool :=
  s.length == 24 && s.data.all isHexDigit

/-! ## Error taxonomy

The services signal errors either through `http-errors` constructors
(`createError.BadRequest`, `createError.NotFound`, `createError.Conflict`)
or, in `ProductService`, through plain `new Error(...)`; the latter is
modelled as kind `internal`. -/

inductive ErrKind where
  | badRequest
  | notFound
  | conflict
  | internal
deriving DecidableEq, Repr

structure ServiceError where
  kind : ErrKind
  msg : String
deriving DecidableEq, Repr

deriving instance DecidableEq for Except

/-! ## ASCII character classes used by `generateSlug`

`ProductService`'s local helper `generateSlug` (src/unnamed/part_004,
lines 17–25) runs the JavaScript chain
lowercase, trim, remove characters outside word/whitespace/hyphen,
replace whitespace runs by a hyphen, collapse hyphen runs, strip one
hyphen at each edge.
The JS regex classes `\w` and `\s` are ASCII `[A-Za-z0-9_]` and whitespace;
the embedding models the ASCII fragment of `toLowerCase`. -/

def asciiUppers : List Char := "ABCDEFGHIJKLMNOPQRSTUVWXYZ".data

def asciiLowers : List Char := "abcdefghijklmnopqrstuvwxyz".data

def digitChars : List Char := "0123456789".data

/-- ASCII fragment of JavaScript `String.prototype.toLowerCase`. -/
def jsToLower (c : Char) : Char :=
  (((asciiUppers.zip asciiLowers).find? (fun p => p.1 == c)).map (·.2)).getD c

/-- JS regex `\w`: `[A-Za-z0-9_]`. -/
def isWordChar (c : Char) : Bool :=
  asciiUppers.contains c || asciiLowers.contains c || digitChars.contains c || c == '_'

/-- JS regex `\s` (ASCII fragment). -/
def isJsWs (c : Char) : Bool :=
  " \t\n\r\x0b\x0c".data.contains c

/-- JS `String.prototype.trim` (ASCII whitespace fragment). -/
def jsTrim (l : List Char) : List Char :=
  ((l.dropWhile isJsWs).reverse.dropWhile isJsWs).reverse

/-- `.replace(/[^\w\s-]/g, '')`: drop every character that is not a word
character, whitespace or a hyphen. -/
def removeNonSlugChars (l : List Char) : List Char :=
  l.filter (fun c => isWordChar c || isJsWs c || c == '-')

/-- `.replace(/\s+/g, '-')`: each maximal whitespace run becomes one
hyphen.  `inRun` records whether the previous character was part of a
whitespace run already replaced. -/
def wsRunsToHyphenAux : Bool → List Char → List Char
  | _, [] => []
  | inRun, c :: rest =>
    if isJsWs c then
      if inRun then wsRunsToHyphenAux true rest
      else '-' :: wsRunsToHyphenAux true rest
    else c :: wsRunsToHyphenAux false rest

def wsRunsToHyphen (l : List Char) : List Char :=
  wsRunsToHyphenAux false l

/-- The hyphen-run collapse step: each maximal hyphen run becomes one
hyphen. -/
def collapseHyphenRunsAux : Bool → List Char → List Char
  | _, [] => []
  | inRun, c :: rest =>
    if c = '-' then
      if inRun then collapseHyphenRunsAux true rest
      else '-' :: collapseHyphenRunsAux true rest
    else c :: collapseHyphenRunsAux false rest

def collapseHyphenRuns (l : List Char) : List Char :=
  collapseHyphenRunsAux false l

/-- One leading hyphen removed (half of `.replace(/^-|-$/g, '')`; the
anchored alternation removes at most one hyphen at each edge). -/
def dropLeadHyphen : List Char → List Char
  | [] => []
  | c :: rest => if c = '-' then rest else c :: rest

/-- `.replace(/^-|-$/g, '')`: remove a single hyphen at either edge. -/
def stripEdgeHyphens (l : List Char) : List Char :=
  ((dropLeadHyphen l).reverse |> dropLeadHyphen).reverse

/-- `generateSlug` from src/unnamed/part_004 lines 17–25. -/
def generateSlug (name : String) : String :=
  String.mk
    (stripEdgeHyphens
      (collapseHyphenRuns
        (wsRunsToHyphen
          (removeNonSlugChars
            (jsTrim (name.data.map jsToLower))))))

/-- Alphanumeric character (used only by the spec-worded transform below). -/
def isAlnumChar (c : Char) : Bool :=
  asciiUppers.contains c || asciiLowers.contains c || digitChars.contains c

/-- Each maximal run of non-alphanumeric characters becomes one hyphen
(used only by the spec-worded transform below). -/
def collapseNonAlnumRunsAux : Bool → List Char → List Char
  | _, [] => []
  | inRun, c :: rest =>
    if isAlnumChar c then c :: collapseNonAlnumRunsAux false rest
    else if inRun then collapseNonAlnumRunsAux true rest
    else '-' :: collapseNonAlnumRunsAux true rest

def collapseNonAlnumRuns (l : List Char) : List Char :=
  collapseNonAlnumRunsAux false l

/-- The slug transform as the spec words it: "lowercase, non-alphanumeric
runs collapsed to single hyphen, leading/trailing hyphens stripped".
Stated only for comparison against the source's `generateSlug`. -/
def slugSpecTransform (name : String) : String :=
  String.mk (stripEdgeHyphens (collapseNonAlnumRuns (name.data.map jsToLower)))

/-! ## Cache gateway

`src/utils/cache.ts` (`generateCacheKey`, `getCache`, `setCache`,
`deleteCache`) is imported by every service but missing from the source
snapshot; it is modelled from the spec (§4.1): keys are a stable
serialization of the resource plus the query parameters with sorted keys
(undefined parameters omitted, as `JSON.stringify` omits them), and
`deleteCache` takes either an exact key or a prefix pattern ending in
`*` that removes every key sharing the prefix. -/

/-- Modelled from the spec: insertion of one query parameter into a
key-sorted parameter list (`generateCacheKey` serializes "with sorted
keys"). -/
def insertParam (p : String × String) :
    List (String × String) → List (String × String)
  | [] => [p]
  | q :: rest =>
    match compare p.1 q.1 with
    | .gt => q :: insertParam p rest
    | _ => p :: q :: rest

/-- Modelled from the spec: canonical serialization of a query object.
Parameters whose value is `none` (JS `undefined`) are omitted, the rest
are sorted by key. -/
def serializeQuery (q : List (String × Option String)) : String :=
  String.intercalate "|"
    (((q.filterMap (fun p => p.2.map (p.1, ·))).foldr insertParam []).map
      (fun p => p.1 ++ "=" ++ p.2))

/-- Modelled from the spec: `generateCacheKey({resource, query})` from the
missing `src/utils/cache.ts`. -/
def generateCacheKey (resource : String) (query : List (String × Option String)) :
    String :=
  resource ++ ":" ++ serializeQuery query

/-- Modelled from the spec: `generateCacheKey({resource})` without a query,
used by the services only as an invalidation pattern covering every key of
the resource. -/
def resourcePattern (resource : String) : String :=
  resource ++ ":*"

/-- Modelled from the spec: whether a `deleteCache` argument matches a
stored key — a pattern ending in `*` matches by prefix, anything else
matches the exact key. -/
def patMatches (pat key : String) : Bool :=
  if pat.data.getLast? = some '*' then pat.data.dropLast.isPrefixOf key.data
  else pat == key

/-! ## Documents of the cross-reference subsystem

`Product` carries every field the claims touch; `Campaign` and `Offer`
are reduced to their id and product-reference set (discount descriptors,
validity windows and flags play no part in any claim). -/

structure Variant where
  sku : String
  price : Nat := 0
deriving DecidableEq, Repr

structure Product where
  pid : String
  name : String := ""
  description : String := ""
  slug : String := ""
  category : String := ""
  brand : String := ""
  featured : Bool := false
  is_active : Bool := true
  campaigns : List String := []
  offers : List String := []
  variants : List Variant := []
deriving DecidableEq, Repr

structure Campaign where
  cid : String
  productsIds : List String
deriving DecidableEq, Repr

structure Offer where
  oid : String
  applicable_products : List String
deriving DecidableEq, Repr

/-- The persistent documents the Cross-Reference Maintainer touches. -/
structure RefState where
  products : List Product
  campaigns : List Campaign
  offers : List Offer
deriving DecidableEq, Repr

/-- Mongo `$addToSet`: append the value if it is not already present. -/
def addToSet (l : List String) (x : String) : List String :=
  if x ∈ l then l else l ++ [x]

/-- Mongo `$pull`: remove every occurrence of the value. -/
def pull (l : List String) (x : String) : List String :=
  l.filter (fun y => y ≠ x)

/-- Effect of `{$addToSet: {campaigns: cid}}` on one product matched by
`{_id: {$in: ids}}`. -/
def applyCampAdd (ids : List String) (cid : String) (p : Product) : Product :=
  if p.pid ∈ ids then { p with campaigns := addToSet p.campaigns cid } else p

/-- Effect of `{$pull: {campaigns: cid}}` on one matched product. -/
def applyCampPull (ids : List String) (cid : String) (p : Product) : Product :=
  if p.pid ∈ ids then { p with campaigns := pull p.campaigns cid } else p

/-- Effect of `{$addToSet: {offers: oid}}` on one matched product. -/
def applyOffAdd (ids : List String) (oid : String) (p : Product) : Product :=
  if p.pid ∈ ids then { p with offers := addToSet p.offers oid } else p

/-- Effect of `{$pull: {offers: oid}}` on one matched product. -/
def applyOffPull (ids : List String) (oid : String) (p : Product) : Product :=
  if p.pid ∈ ids then { p with offers := pull p.offers oid } else p

/-- `ProductModel.updateMany({_id: {$in: ids}}, {$addToSet: {campaigns: cid}})`. -/
def addCampaignToMany (ps : List Product) (ids : List String) (cid : String) :
    List Product :=
  ps.map (applyCampAdd ids cid)

/-- `ProductModel.updateMany({_id: {$in: ids}}, {$pull: {campaigns: cid}})`. -/
def pullCampaignFromMany (ps : List Product) (ids : List String) (cid : String) :
    List Product :=
  ps.map (applyCampPull ids cid)

/-- `ProductModel.updateMany({_id: {$in: ids}}, {$addToSet: {offers: oid}})`. -/
def addOfferToMany (ps : List Product) (ids : List String) (oid : String) :
    List Product :=
  ps.map (applyOffAdd ids oid)

/-- `ProductModel.updateMany({_id: {$in: ids}}, {$pull: {offers: oid}})`. -/
def pullOfferFromMany (ps : List Product) (ids : List String) (oid : String) :
    List Product :=
  ps.map (applyOffPull ids oid)

/-- The persistence / cache effects an operation performs, in program
order.  Each cache constructor corresponds to one literal `deleteCache`
argument of the source. -/
inductive Evt where
  | createdCampaign (cid : String)
  | updatedCampaign (cid : String)
  | deletedCampaign (cid : String)
  | createdOffer (oid : String)
  | updatedOffer (oid : String)
  | deletedOffer (oid : String)
  | pulledCampaignFromProducts (pids : List String) (cid : String)
  | addedCampaignToProducts (pids : List String) (cid : String)
  | pulledOfferFromProducts (pids : List String) (oid : String)
  | addedOfferToProducts (pids : List String) (oid : String)
  | updatedProduct (pid : String)
  | removedCacheProductsList
  | removedCacheProductDetail (pid : String)
  | removedCacheCampaigns
  | removedCacheCampaignDetail (cid : String)
  | removedCacheOffers
  | removedCacheOfferDetail (oid : String)
deriving DecidableEq, Repr

def findCampaign (s : RefState) (id : String) : Option Campaign :=
  s.campaigns.find? (fun c => c.cid == id)

def findOffer (s : RefState) (id : String) : Option Offer :=
  s.offers.find? (fun o => o.oid == id)

def findProduct (s : RefState) (id : String) : Option Product :=
  s.products.find? (fun p => p.pid == id)

/-! ## CampaignService (src/src/modules/cart/cart.controller.ts, second
document: campaign.service) -/

/-- Payload `data.applies_to?.productsIds` of create/update bodies;
`none` models an absent field. -/
structure CampaignBody where
  productsIds : Option (List String)
deriving DecidableEq, Repr

/-- `CampaignService.create` (lines 303–324).  The driver-generated
`campaign._id` is the explicit `freshId`.  Note: on a non-empty product
list the products' list cache is invalidated, never the product details. -/
def campaignCreate (s : RefState) (freshId : String) (data : CampaignBody) :
    RefState × List Evt :=
  let s1 := { s with campaigns := s.campaigns ++ [⟨freshId, (data.productsIds).getD []⟩] }
  let evts1 := [Evt.createdCampaign freshId]
  match data.productsIds with
  | some pids =>
    if pids.length > 0 then
      ({ s1 with products := addCampaignToMany s1.products pids freshId },
       evts1 ++ [.addedCampaignToProducts pids freshId, .removedCacheProductsList,
         .removedCacheCampaigns])
    else (s1, evts1 ++ [.removedCacheCampaigns])
  | none => (s1, evts1 ++ [.removedCacheCampaigns])

/-- `CampaignService.update` (lines 326–385). -/
def campaignUpdate (s : RefState) (id : String) (data : CampaignBody) :
    Except ServiceError (RefState × List Evt) :=
  if ¬ isValidMongoId id then .error ⟨.badRequest, "Invalid campaign ID"⟩
  else match findCampaign s id with
  | none => .error ⟨.notFound, "Campaign not found"⟩
  | some oldCampaign =>
    let s1 := { s with campaigns := s.campaigns.map fun c =>
      if c.cid = id then { c with productsIds := data.productsIds.getD c.productsIds }
      else c }
    let evts1 := [Evt.updatedCampaign id]
    match data.productsIds with
    | some newProductIds =>
      let oldProductIds := oldCampaign.productsIds
      let productsToUnlink := oldProductIds.filter (fun pid => pid ∉ newProductIds)
      let productsToLink := newProductIds.filter (fun pid => pid ∉ oldProductIds)
      let s2 :=
        if productsToUnlink.length > 0 then
          { s1 with products := pullCampaignFromMany s1.products productsToUnlink id }
        else s1
      let evts2 := evts1 ++
        (if productsToUnlink.length > 0 then [Evt.pulledCampaignFromProducts productsToUnlink id] else [])
      let s3 :=
        if productsToLink.length > 0 then
          { s2 with products := addCampaignToMany s2.products productsToLink id }
        else s2
      let evts3 := evts2 ++
        (if productsToLink.length > 0 then [Evt.addedCampaignToProducts productsToLink id] else [])
      let evts4 := evts3 ++
        (if productsToUnlink.length > 0 ∨ productsToLink.length > 0 then [Evt.removedCacheProductsList] else [])
      .ok (s3, evts4 ++ [.removedCacheCampaignDetail id, .removedCacheCampaigns])
    | none => .ok (s1, evts1 ++ [.removedCacheCampaignDetail id, .removedCacheCampaigns])

/-- `CampaignService.delete` (lines 391–428): products are unlinked first,
the campaign record is removed afterwards. -/
def campaignDelete (s : RefState) (id : String) :
    Except ServiceError (RefState × List Evt) :=
  if ¬ isValidMongoId id then .error ⟨.badRequest, "Invalid campaign ID"⟩
  else match findCampaign s id with
  | none => .error ⟨.notFound, "Campaign not found"⟩
  | some campaign =>
    let unlinked :=
      if campaign.productsIds.length > 0 then
        ({ s with products := pullCampaignFromMany s.products campaign.productsIds id },
         [Evt.pulledCampaignFromProducts campaign.productsIds id, Evt.removedCacheProductsList])
      else (s, [])
    let s2 := { unlinked.1 with campaigns := unlinked.1.campaigns.filter (fun c => c.cid ≠ id) }
    .ok (s2, unlinked.2 ++ [.deletedCampaign id, .removedCacheCampaignDetail id, .removedCacheCampaigns])

/-! ## OfferService (src/src/modules/wishlist/wishlist.model.ts, second
document: offer.service) — structurally identical to `CampaignService`,
operating on `applicable_products` and `product.offers`. -/

structure OfferBody where
  applicable_products : Option (List String)
deriving DecidableEq, Repr

/-- `OfferService.create` (lines 230–248). -/
def offerCreate (s : RefState) (freshId : String) (data : OfferBody) :
    RefState × List Evt :=
  let s1 := { s with offers := s.offers ++ [⟨freshId, (data.applicable_products).getD []⟩] }
  let evts1 := [Evt.createdOffer freshId]
  match data.applicable_products with
  | some pids =>
    if pids.length > 0 then
      ({ s1 with products := addOfferToMany s1.products pids freshId },
       evts1 ++ [.addedOfferToProducts pids freshId, .removedCacheProductsList,
         .removedCacheOffers])
    else (s1, evts1 ++ [.removedCacheOffers])
  | none => (s1, evts1 ++ [.removedCacheOffers])

/-- `OfferService.update` (lines 250–309). -/
def offerUpdate (s : RefState) (id : String) (data : OfferBody) :
    Except ServiceError (RefState × List Evt) :=
  if ¬ isValidMongoId id then .error ⟨.badRequest, "Invalid offer ID"⟩
  else match findOffer s id with
  | none => .error ⟨.notFound, "Offer not found"⟩
  | some oldOffer =>
    let s1 := { s with offers := s.offers.map fun o =>
      if o.oid = id then { o with applicable_products := data.applicable_products.getD o.applicable_products }
      else o }
    let evts1 := [Evt.updatedOffer id]
    match data.applicable_products with
    | some newProductIds =>
      let oldProductIds := oldOffer.applicable_products
      let productsToUnlink := oldProductIds.filter (fun pid => pid ∉ newProductIds)
      let productsToLink := newProductIds.filter (fun pid => pid ∉ oldProductIds)
      let s2 :=
        if productsToUnlink.length > 0 then
          { s1 with products := pullOfferFromMany s1.products productsToUnlink id }
        else s1
      let evts2 := evts1 ++
        (if productsToUnlink.length > 0 then [Evt.pulledOfferFromProducts productsToUnlink id] else [])
      let s3 :=
        if productsToLink.length > 0 then
          { s2 with products := addOfferToMany s2.products productsToLink id }
        else s2
      let evts3 := evts2 ++
        (if productsToLink.length > 0 then [Evt.addedOfferToProducts productsToLink id] else [])
      let evts4 := evts3 ++
        (if productsToUnlink.length > 0 ∨ productsToLink.length > 0 then [Evt.removedCacheProductsList] else [])
      .ok (s3, evts4 ++ [.removedCacheOfferDetail id, .removedCacheOffers])
    | none => .ok (s1, evts1 ++ [.removedCacheOfferDetail id, .removedCacheOffers])

/-- `OfferService.delete` (lines 315–349). -/
def offerDelete (s : RefState) (id : String) :
    Except ServiceError (RefState × List Evt) :=
  if ¬ isValidMongoId id then .error ⟨.badRequest, "Invalid offer ID"⟩
  else match findOffer s id with
  | none => .error ⟨.notFound, "Offer not found"⟩
  | some offer =>
    let unlinked :=
      if offer.applicable_products.length > 0 then
        ({ s with products := pullOfferFromMany s.products offer.applicable_products id },
         [Evt.pulledOfferFromProducts offer.applicable_products id, Evt.removedCacheProductsList])
      else (s, [])
    let s2 := { unlinked.1 with offers := unlinked.1.offers.filter (fun o => o.oid ≠ id) }
    .ok (s2, unlinked.2 ++ [.deletedOffer id, .removedCacheOfferDetail id, .removedCacheOffers])

/-! ## ProductService link/unlink operations (src/unnamed/part_004,
lines 649–761).  These update only the product-side reference array: the
campaign's / offer's own `productsIds` / `applicable_products` is never
touched. -/

/-- `ProductService.linkCampaigns` (lines 649–676). -/
def productLinkCampaigns (s : RefState) (id : String) (campaignIds : List String) :
    Except ServiceError (RefState × List Evt) :=
  if ¬ isValidMongoId id then .error ⟨.internal, "Invalid product ID"⟩
  else if campaignIds.any (fun c => ¬ isValidMongoId c) then
    .error ⟨.internal, "Invalid campaign ID"⟩
  else if (findProduct s id).isNone then .error ⟨.internal, "Product not found"⟩
  else
    .ok ({ s with products := s.products.map fun p =>
        if p.pid == id then { p with campaigns := campaignIds.foldl addToSet p.campaigns } else p },
      [Evt.updatedProduct id, .removedCacheProductsList, .removedCacheProductDetail id])

/-- `ProductService.unlinkCampaign` (lines 679–703). -/
def productUnlinkCampaign (s : RefState) (id : String) (campaignId : String) :
    Except ServiceError (RefState × List Evt) :=
  if ¬ isValidMongoId id then .error ⟨.internal, "Invalid product ID"⟩
  else if ¬ isValidMongoId campaignId then .error ⟨.internal, "Invalid campaign ID"⟩
  else if (findProduct s id).isNone then .error ⟨.internal, "Product not found"⟩
  else
    .ok ({ s with products := s.products.map fun p =>
        if p.pid == id then { p with campaigns := pull p.campaigns campaignId } else p },
      [Evt.updatedProduct id, .removedCacheProductsList, .removedCacheProductDetail id])

/-- `ProductService.linkOffers` (lines 706–733). -/
def productLinkOffers (s : RefState) (id : String) (offerIds : List String) :
    Except ServiceError (RefState × List Evt) :=
  if ¬ isValidMongoId id then .error ⟨.internal, "Invalid product ID"⟩
  else if offerIds.any (fun o => ¬ isValidMongoId o) then
    .error ⟨.internal, "Invalid offer ID"⟩
  else if (findProduct s id).isNone then .error ⟨.internal, "Product not found"⟩
  else
    .ok ({ s with products := s.products.map fun p =>
        if p.pid == id then { p with offers := offerIds.foldl addToSet p.offers } else p },
      [Evt.updatedProduct id, .removedCacheProductsList, .removedCacheProductDetail id])

/-- `ProductService.unlinkOffer` (lines 736–760). -/
def productUnlinkOffer (s : RefState) (id : String) (offerId : String) :
    Except ServiceError (RefState × List Evt) :=
  if ¬ isValidMongoId id then .error ⟨.internal, "Invalid product ID"⟩
  else if ¬ isValidMongoId offerId then .error ⟨.internal, "Invalid offer ID"⟩
  else if (findProduct s id).isNone then .error ⟨.internal, "Product not found"⟩
  else
    .ok ({ s with products := s.products.map fun p =>
        if p.pid == id then { p with offers := pull p.offers offerId } else p },
      [Evt.updatedProduct id, .removedCacheProductsList, .removedCacheProductDetail id])

/-! ## The bidirectional reference invariant (spec §3, Campaign/Offer)

A product ID sits in a campaign's (offer's) reference set exactly when
that campaign's (offer's) ID sits in the product's `campaigns` (`offers`)
array; reference sets only mention existing products. -/

/-- Campaign side of the bidirectional invariant, over the product and
campaign collections. -/
def CampSide (ps : List Product) (cs : List Campaign) : Prop :=
  (∀ c ∈ cs, ∀ x ∈ c.productsIds, ∀ p ∈ ps, p.pid = x → c.cid ∈ p.campaigns)
  ∧ (∀ c ∈ cs, ∀ x ∈ c.productsIds, ∃ p ∈ ps, p.pid = x)
  ∧ (∀ p ∈ ps, ∀ cid ∈ p.campaigns, ∃ c ∈ cs, c.cid = cid ∧ p.pid ∈ c.productsIds)

/-- Offer side of the bidirectional invariant. -/
def OfferSide (ps : List Product) (os : List Offer) : Prop :=
  (∀ o ∈ os, ∀ x ∈ o.applicable_products, ∀ p ∈ ps, p.pid = x → o.oid ∈ p.offers)
  ∧ (∀ o ∈ os, ∀ x ∈ o.applicable_products, ∃ p ∈ ps, p.pid = x)
  ∧ (∀ p ∈ ps, ∀ oid ∈ p.offers, ∃ o ∈ os, o.oid = oid ∧ p.pid ∈ o.applicable_products)

/-- The full bidirectional reference invariant. -/
def BidirInv (s : RefState) : Prop :=
  CampSide s.products s.campaigns ∧ OfferSide s.products s.offers

/-- Document ids are unique, as Mongo `_id`s are. -/
def WFIds (s : RefState) : Prop :=
  (s.products.map (·.pid)).Nodup ∧ (s.campaigns.map (·.cid)).Nodup
  ∧ (s.offers.map (·.oid)).Nodup

instance (ps : List Product) (cs : List Campaign) : Decidable (CampSide ps cs) := by
  unfold CampSide; infer_instance

instance (ps : List Product) (os : List Offer) : Decidable (OfferSide ps os) := by
  unfold OfferSide; infer_instance

instance (s : RefState) : Decidable (BidirInv s) := by
  unfold BidirInv; infer_instance

instance (s : RefState) : Decidable (WFIds s) := by
  unfold WFIds; infer_instance

/-! ### The operations named by the bidirectional-invariant claim -/

inductive RefOp where
  | campCreate (freshId : String) (data : CampaignBody)
  | campUpdate (id : String) (data : CampaignBody)
  | campDelete (id : String)
  | offCreate (freshId : String) (data : OfferBody)
  | offUpdate (id : String) (data : OfferBody)
  | offDelete (id : String)
  | linkCampaigns (id : String) (campaignIds : List String)
  | unlinkCampaign (id : String) (campaignId : String)
  | linkOffers (id : String) (offerIds : List String)
  | unlinkOffer (id : String) (offerId : String)
deriving DecidableEq, Repr

/-- A failed operation leaves the stored documents untouched. -/
def okOr (s : RefState) : Except ServiceError (RefState × List Evt) → RefState
  | .ok r => r.1
  | .error _ => s

def applyRefOp (s : RefState) : RefOp → RefState
  | .campCreate freshId data => (campaignCreate s freshId data).1
  | .campUpdate id data => okOr s (campaignUpdate s id data)
  | .campDelete id => okOr s (campaignDelete s id)
  | .offCreate freshId data => (offerCreate s freshId data).1
  | .offUpdate id data => okOr s (offerUpdate s id data)
  | .offDelete id => okOr s (offerDelete s id)
  | .linkCampaigns id campaignIds => okOr s (productLinkCampaigns s id campaignIds)
  | .unlinkCampaign id campaignId => okOr s (productUnlinkCampaign s id campaignId)
  | .linkOffers id offerIds => okOr s (productLinkOffers s id offerIds)
  | .unlinkOffer id offerId => okOr s (productUnlinkOffer s id offerId)

def runRefOps (s : RefState) : List RefOp → RefState
  | [] => s
  | op :: rest => runRefOps (applyRefOp s op) rest

/-- Whether a `CampaignService` / `OfferService` operation is invoked under the
conditions the service relies on: fresh driver-generated ids on create
and reference lists naming existing products.  Product-side
link/unlink operations are never admitted here: they maintain only one
side of the reference. -/
def validRefOp (s : RefState) : RefOp → Bool
  | .campCreate freshId data =>
    s.campaigns.all (fun c => c.cid ≠ freshId)
      && s.products.all (fun p => freshId ∉ p.campaigns)
      && (data.productsIds.getD []).all (fun x => s.products.any (fun p => p.pid = x))
  | .campUpdate _ data =>
    (data.productsIds.getD []).all (fun x => s.products.any (fun p => p.pid = x))
  | .campDelete _ => true
  | .offCreate freshId data =>
    s.offers.all (fun o => o.oid ≠ freshId)
      && s.products.all (fun p => freshId ∉ p.offers)
      && (data.applicable_products.getD []).all (fun x => s.products.any (fun p => p.pid = x))
  | .offUpdate _ data =>
    (data.applicable_products.getD []).all (fun x => s.products.any (fun p => p.pid = x))
  | .offDelete _ => true
  | .linkCampaigns _ _ => false
  | .unlinkCampaign _ _ => false
  | .linkOffers _ _ => false
  | .unlinkOffer _ _ => false

def validRefOps (s : RefState) : List RefOp → Bool
  | [] => true
  | op :: rest => validRefOp s op && validRefOps (applyRefOp s op) rest

/-! ## Cart documents and CartService (src/src/modules/cart/cart.service.ts) -/

structure CartItem where
  itemId : String
  product : String
  quantity : Nat
deriving DecidableEq, Repr

structure Cart where
  user : String
  items : List CartItem
deriving DecidableEq, Repr

/-- `existingItem.quantity += quantity` on the first item holding the
product (`cart.items.find(...)` followed by the in-place mutation). -/
def bumpQuantityFirst : List CartItem → String → Nat → List CartItem
  | [], _, _ => []
  | it :: rest, productId, q =>
    if it.product == productId then { it with quantity := it.quantity + q } :: rest
    else it :: bumpQuantityFirst rest productId q

/-- `item.quantity = quantity` on the first item with the given
subdocument `_id`. -/
def setQuantityFirst : List CartItem → String → Nat → List CartItem
  | [], _, _ => []
  | it :: rest, itemId, q =>
    if it.itemId == itemId then { it with quantity := q } :: rest
    else it :: setQuantityFirst rest itemId q

/-- `CartService.addItem` (lines 74–116).  `freshItemId` is the
subdocument `_id` Mongoose mints for a newly pushed item.  Returns the
new cart collection, the saved cart and the `deleteCache` patterns. -/
def cartAddItem (carts : List Cart) (userId productId : String) (quantity : Nat)
    (freshItemId : String) :
    Except ServiceError (List Cart × Cart × List String) :=
  if ¬ isValidMongoId userId then .error ⟨.badRequest, "Invalid user ID"⟩
  else if ¬ isValidMongoId productId then .error ⟨.badRequest, "Invalid product ID"⟩
  else
    match carts.find? (fun c => c.user == userId) with
    | none =>
      let cart : Cart := ⟨userId, [⟨freshItemId, productId, quantity⟩]⟩
      .ok (carts ++ [cart], cart, ["cart:" ++ userId ++ ":*", "cart:all:*"])
    | some cart =>
      let newItems :=
        if cart.items.any (fun it => it.product == productId) then
          bumpQuantityFirst cart.items productId quantity
        else cart.items ++ [⟨freshItemId, productId, quantity⟩]
      let cart' : Cart := { cart with items := newItems }
      .ok (carts.map (fun c => if c.user == userId then cart' else c), cart',
        ["cart:" ++ userId ++ ":*", "cart:all:*"])

/-- `CartService.updateItem` (lines 118–147): sets the item's quantity to
exactly the given value. -/
def cartUpdateItem (carts : List Cart) (userId itemId : String) (quantity : Nat) :
    Except ServiceError (List Cart × Cart × List String) :=
  if ¬ isValidMongoId userId then .error ⟨.badRequest, "Invalid user ID"⟩
  else if ¬ isValidMongoId itemId then .error ⟨.badRequest, "Invalid item ID"⟩
  else
    match carts.find? (fun c => c.user == userId) with
    | none => .error ⟨.notFound, "Cart not found"⟩
    | some cart =>
      if cart.items.any (fun i => i.itemId == itemId) then
        let cart' : Cart := { cart with items := setQuantityFirst cart.items itemId quantity }
        .ok (carts.map (fun c => if c.user == userId then cart' else c), cart',
          ["cart:" ++ userId ++ ":*", "cart:all:*"])
      else .error ⟨.notFound, "Item not found in cart"⟩

/-- Total quantity a cart holds for one product. -/
def qtyOf (items : List CartItem) (productId : String) : Nat :=
  ((items.filter (fun it => it.product == productId)).map (·.quantity)).sum

/-- Number of cart items for one product. -/
def countOf (items : List CartItem) (productId : String) : Nat :=
  (items.filter (fun it => it.product == productId)).length

/-- The items of a user's cart (`CartModel.findOne({user})`), empty when
the user has no cart. -/
def userItems (carts : List Cart) (userId : String) : List CartItem :=
  ((carts.find? (fun c => c.user == userId)).map (·.items)).getD []

/-- Pagination envelope `{items, page, limit, totalPages}`. -/
structure Pagination where
  items : Nat
  page : Nat
  limit : Nat
  totalPages : Nat
deriving DecidableEq, Repr

/-- `CartService.getAllCarts` (lines 201–257), the cache-miss path: no
filter, `skip = (page-1)*limit`, `limit`, `countDocuments()` and
`totalPages = Math.ceil(total/limit)`.  Field selection and population
only project the returned documents and are not modelled. -/
def cartGetAllCarts (carts : List Cart) (page limit : Nat) :
    List Cart × Pagination :=
  let skip := (page - 1) * limit
  let data := (carts.drop skip).take limit
  let total := carts.length
  (data, ⟨total, page, limit, (total + limit - 1) / limit⟩)

/-! ## ProductService list (src/unnamed/part_004, lines 29–131) -/

/-- Does `hay` start with `needle` (character-wise)? -/
def startsWithChars : List Char → List Char → Bool
  | _, [] => true
  | [], _ :: _ => false
  | h :: hs, n :: ns => h == n && startsWithChars hs ns

/-- Substring test, used to model `$regex` matching. -/
def containsChars : List Char → List Char → Bool
  | [], needle => needle.isEmpty
  | h :: rest, needle => startsWithChars (h :: rest) needle || containsChars rest needle

/-- `{$regex: search, $options: 'i'}`: case-insensitive substring match
(for plain-text search strings). -/
def containsCI (hay needle : String) : Bool :=
  containsChars (hay.data.map jsToLower) (needle.data.map jsToLower)

structure GetProductsQuery where
  search : Option String := none
  category : Option String := none
  brand : Option String := none
  featured : Option Bool := none
  is_active : Option Bool := none
  page : Nat := 1
  limit : Nat := 10
  sortBy : String := "name"
  sortOrder : String := "asc"
deriving DecidableEq, Repr

/-- The `filter` object built by `ProductService.list`: search as an
`$or` over name/description/slug, exact match on the categorical
fields. -/
def productMatchesFilter (query : GetProductsQuery) (p : Product) : Bool :=
  (match query.search with
   | some s => containsCI p.name s || containsCI p.description s || containsCI p.slug s
   | none => true)
  && (match query.category with | some c => p.category == c | none => true)
  && (match query.brand with | some b => p.brand == b | none => true)
  && (match query.featured with | some f => p.featured == f | none => true)
  && (match query.is_active with | some a => p.is_active == a | none => true)

/-- Sort key for the string-valued document fields (`sortBy` defaults to
`name`; timestamp fields are outside the document model). -/
def productSortKey (sortBy : String) (p : Product) : String :=
  if sortBy == "slug" then p.slug
  else if sortBy == "description" then p.description
  else if sortBy == "category" then p.category
  else if sortBy == "brand" then p.brand
  else p.name

def productLE (query : GetProductsQuery) (a b : Product) : Bool :=
  if query.sortOrder == "desc" then
    decide (productSortKey query.sortBy b ≤ productSortKey query.sortBy a)
  else
    decide (productSortKey query.sortBy a ≤ productSortKey query.sortBy b)

def insertSorted (le : Product → Product → Bool) (p : Product) :
    List Product → List Product
  | [] => [p]
  | q :: rest => if le p q then p :: q :: rest else q :: insertSorted le p rest

/-- The persistence engine's `.sort(sort)`. -/
def sortProducts (le : Product → Product → Bool) (l : List Product) : List Product :=
  l.foldr (insertSorted le) []

/-- `ProductService.list` (lines 29–131), the cache-miss path. -/
def productList (store : List Product) (query : GetProductsQuery) :
    List Product × Pagination :=
  let filtered := store.filter (productMatchesFilter query)
  let skip := (query.page - 1) * query.limit
  let data := ((sortProducts (productLE query) filtered).drop skip).take query.limit
  let total := filtered.length
  (data, ⟨total, query.page, query.limit, (total + query.limit - 1) / query.limit⟩)

/-! ## ProductService detail/create/update with the cache store
(src/unnamed/part_004) -/

/-- Remove the keys a `deleteCache` call matches. -/
def deleteCacheProducts (cache : List (String × Product)) (pat : String) :
    List (String × Product) :=
  cache.filter (fun e => ¬ patMatches pat e.1)

/-- The product-detail portion of the cache key-value store, plus the
product collection. -/
structure PState where
  store : List Product
  cache : List (String × Product)
deriving DecidableEq, Repr

/-- The key `ProductService.getById` derives: resource `'product'`, the
id inside the query object. -/
def productCacheKey (id : String) (fields includeCampaigns includeOffers : Option String) :
    String :=
  generateCacheKey "product"
    [("id", some id), ("fields", fields), ("includeCampaigns", includeCampaigns),
     ("includeOffers", includeOffers)]

/-- `ProductService.getById` (lines 134–197): read-through on the derived
key; `NotFound`/`Invalid` are plain `Error`s in this module. -/
def productGetById (s : PState) (id : String)
    (fields includeCampaigns includeOffers : Option String) :
    PState × Except ServiceError Product :=
  if ¬ isValidMongoId id then (s, .error ⟨.internal, "Invalid product ID"⟩)
  else
    let cacheKey := productCacheKey id fields includeCampaigns includeOffers
    match (s.cache.find? (fun e => e.1 == cacheKey)).map (·.2) with
    | some cached => (s, .ok cached)
    | none =>
      match s.store.find? (fun p => p.pid == id) with
      | none => (s, .error ⟨.internal, "Product not found"⟩)
      | some product =>
        ({ s with cache := s.cache ++ [(cacheKey, product)] }, .ok product)

structure CreateProductBody where
  name : Option String := none
  description : Option String := none
  category : String := ""
  brand : String := ""
  slug : Option String := none
  featured : Bool := false
  is_active : Bool := true
  variants : List Variant := []
deriving DecidableEq, Repr

/-- `ProductService.create` (lines 200–228): slug auto-derivation when
absent, slug- then name-duplicate checks, insert, list-cache
invalidation.  The first component is the store/cache state after the
call — unchanged whenever an error is returned. -/
def productCreate (s : PState) (freshId : String) (data : CreateProductBody) :
    PState × Except ServiceError Product :=
  let slug0 :=
    match data.slug, data.name with
    | none, some n => some (generateSlug n)
    | sl, _ => sl
  if (match slug0 with
      | some sl => s.store.any (fun q => q.slug == sl)
      | none => false) then
    (s, .error ⟨.internal, "Product with this slug already exists"⟩)
  else if (match data.name with
      | some n => s.store.any (fun q => q.name == n)
      | none => false) then
    (s, .error ⟨.internal, "Product with this name already exists"⟩)
  else
    let product : Product :=
      ⟨freshId, data.name.getD "", data.description.getD "", slug0.getD "",
       data.category, data.brand, data.featured, data.is_active, [], [], data.variants⟩
    ({ store := s.store ++ [product],
       cache := deleteCacheProducts s.cache "products:list:*" }, .ok product)

structure UpdateProductBody where
  name : Option String := none
  description : Option String := none
  category : Option String := none
  brand : Option String := none
  slug : Option String := none
  featured : Option Bool := none
  is_active : Option Bool := none
deriving DecidableEq, Repr

/-- `findByIdAndUpdate(id, data)`: merge the provided fields. -/
def applyProductUpdate (data : UpdateProductBody) (p : Product) : Product :=
  { p with
    name := data.name.getD p.name,
    description := data.description.getD p.description,
    category := data.category.getD p.category,
    brand := data.brand.getD p.brand,
    slug := data.slug.getD p.slug,
    featured := data.featured.getD p.featured,
    is_active := data.is_active.getD p.is_active }

/-- `ProductService.update` (lines 231–278): re-derives the slug when the
name changes, checks uniqueness excluding the record itself, updates,
then deletes `products:list:*` and the exact key `product:id`. -/
def productUpdate (s : PState) (id : String) (data : UpdateProductBody) :
    PState × Except ServiceError Product :=
  if ¬ isValidMongoId id then (s, .error ⟨.internal, "Invalid product ID"⟩)
  else
    match s.store.find? (fun p => p.pid == id) with
    | none => (s, .error ⟨.internal, "Product not found"⟩)
    | some product =>
      let data' :=
        match data.name with
        | some n => if n ≠ product.name then { data with slug := some (generateSlug n) } else data
        | none => data
      if (match data'.slug with
          | some sl => decide (sl ≠ product.slug)
              && s.store.any (fun q => q.slug == sl && q.pid != id)
          | none => false) then
        (s, .error ⟨.internal, "Product with this slug already exists"⟩)
      else if (match data'.name with
          | some n => decide (n ≠ product.name)
              && s.store.any (fun q => q.name == n && q.pid != id)
          | none => false) then
        (s, .error ⟨.internal, "Product with this name already exists"⟩)
      else
        ({ store := s.store.map (fun p => if p.pid == id then applyProductUpdate data' p else p),
           cache := deleteCacheProducts
             (deleteCacheProducts s.cache "products:list:*") ("product:" ++ id) },
         .ok (applyProductUpdate data' product))

/-- `ProductService.addVariant` (lines 323–351): global SKU-duplicate
check before the `$push`. -/
def productAddVariant (s : PState) (id : String) (variant : Variant) :
    PState × Except ServiceError Product :=
  if ¬ isValidMongoId id then (s, .error ⟨.internal, "Invalid product ID"⟩)
  else if s.store.any (fun q => q.variants.any (fun v => v.sku == variant.sku)) then
    (s, .error ⟨.internal, "Variant with this SKU already exists"⟩)
  else
    match s.store.find? (fun p => p.pid == id) with
    | none => (s, .error ⟨.internal, "Product not found"⟩)
    | some product =>
      ({ store := s.store.map (fun p =>
            if p.pid == id then { p with variants := p.variants ++ [variant] } else p),
         cache := deleteCacheProducts
           (deleteCacheProducts s.cache "products:list:*") ("product:" ++ id) },
       .ok { product with variants := product.variants ++ [variant] })

/-! ## BrandService (src/src/modules/brand/brand.controller.ts, second
document: brand.service) -/

structure Brand where
  bid : String
  name : String
  slug : String
deriving DecidableEq, Repr

structure BState where
  store : List Brand
  cache : List (String × Brand)
deriving DecidableEq, Repr

def deleteCacheBrands (cache : List (String × Brand)) (pat : String) :
    List (String × Brand) :=
  cache.filter (fun e => ¬ patMatches pat e.1)

/-- The key `BrandService.getById` derives: the id is part of the
resource (`brands:id`), only the field selection is in the query. -/
def brandCacheKey (id : String) (fields : Option String) : String :=
  generateCacheKey ("brands:" ++ id) [("fields", fields)]

/-- `BrandService.getById` (lines 167–198). -/
def brandGetById (s : BState) (id : String) (fields : Option String) :
    BState × Except ServiceError Brand :=
  if ¬ isValidMongoId id then (s, .error ⟨.badRequest, "Invalid brand id"⟩)
  else
    let cacheKey := brandCacheKey id fields
    match (s.cache.find? (fun e => e.1 == cacheKey)).map (·.2) with
    | some cached => (s, .ok cached)
    | none =>
      match s.store.find? (fun b => b.bid == id) with
      | none => (s, .error ⟨.notFound, "Brand not found"⟩)
      | some brand => ({ s with cache := s.cache ++ [(cacheKey, brand)] }, .ok brand)

structure CreateBrandBody where
  name : String
  slug : Option String := none
deriving DecidableEq, Repr

/-- `BrandService.create` (lines 200–217).  The slug helper it imports
(`src/utils/generate-slug.ts`) is missing from the snapshot and is
modelled from the spec by `slugSpecTransform`. -/
def brandCreate (s : BState) (freshId : String) (data : CreateBrandBody) :
    BState × Except ServiceError String :=
  if s.store.any (fun b => b.name == data.name) then
    (s, .error ⟨.conflict, "Brand name already exists"⟩)
  else
    let slug :=
      match data.slug with
      | some sl => sl
      | none => slugSpecTransform data.name
    if s.store.any (fun b => b.slug == slug) then
      (s, .error ⟨.conflict, "Brand slug already exists"⟩)
    else
      ({ store := s.store ++ [⟨freshId, data.name, slug⟩],
         cache := deleteCacheBrands s.cache (resourcePattern "brands") }, .ok freshId)

/-! ## CampaignService.getById (for the error-taxonomy claim) -/

/-- `CampaignService.getById` (lines 250–301). -/
def campaignGetById (campaigns : List Campaign) (cache : List (String × Campaign))
    (id : String) (fields includeProducts : Option String) :
    Except ServiceError (Campaign × List (String × Campaign)) :=
  if ¬ isValidMongoId id then .error ⟨.badRequest, "Invalid campaign ID"⟩
  else
    let cacheKey := generateCacheKey ("campaigns:" ++ id)
      [("fields", fields), ("includeProducts", includeProducts)]
    match (cache.find? (fun e => e.1 == cacheKey)).map (·.2) with
    | some cached => .ok (cached, cache)
    | none =>
      match campaigns.find? (fun c => c.cid == id) with
      | none => .error ⟨.notFound, "Campaign not found"⟩
      | some campaign => .ok (campaign, cache ++ [(cacheKey, campaign)])

/-! ### Membership lemmas for the Mongo array primitives -/

theorem mem_addToSet_iff {l : List String} {x y : String} :
    y ∈ addToSet l x ↔ y = x ∨ y ∈ l := by
  unfold addToSet
  split
  · constructor
    · exact .inr
    · rintro (rfl | h) <;> assumption
  · simp [or_comm]

theorem mem_addToSet_self (l : List String) (x : String) : x ∈ addToSet l x :=
  mem_addToSet_iff.2 (.inl rfl)

theorem mem_addToSet_of_mem {l : List String} {x y : String} (h : y ∈ l) :
    y ∈ addToSet l x :=
  mem_addToSet_iff.2 (.inr h)

theorem mem_pull_iff {l : List String} {x y : String} :
    y ∈ pull l x ↔ y ∈ l ∧ y ≠ x := by
  simp [pull]

@[simp] theorem applyCampAdd_pid (ids : List String) (cid : String) (p : Product) :
    (applyCampAdd ids cid p).pid = p.pid := by
  unfold applyCampAdd; split <;> rfl

@[simp] theorem applyCampAdd_offers (ids : List String) (cid : String) (p : Product) :
    (applyCampAdd ids cid p).offers = p.offers := by
  unfold applyCampAdd; split <;> rfl

theorem applyCampAdd_campaigns (ids : List String) (cid : String) (p : Product) :
    (applyCampAdd ids cid p).campaigns =
      if p.pid ∈ ids then addToSet p.campaigns cid else p.campaigns := by
  unfold applyCampAdd; split <;> simp_all

@[simp] theorem applyCampPull_pid (ids : List String) (cid : String) (p : Product) :
    (applyCampPull ids cid p).pid = p.pid := by
  unfold applyCampPull; split <;> rfl

@[simp] theorem applyCampPull_offers (ids : List String) (cid : String) (p : Product) :
    (applyCampPull ids cid p).offers = p.offers := by
  unfold applyCampPull; split <;> rfl

theorem applyCampPull_campaigns (ids : List String) (cid : String) (p : Product) :
    (applyCampPull ids cid p).campaigns =
      if p.pid ∈ ids then pull p.campaigns cid else p.campaigns := by
  unfold applyCampPull; split <;> simp_all

@[simp] theorem applyOffAdd_pid (ids : List String) (oid : String) (p : Product) :
    (applyOffAdd ids oid p).pid = p.pid := by
  unfold applyOffAdd; split <;> rfl

@[simp] theorem applyOffAdd_campaigns (ids : List String) (oid : String) (p : Product) :
    (applyOffAdd ids oid p).campaigns = p.campaigns := by
  unfold applyOffAdd; split <;> rfl

theorem applyOffAdd_offers (ids : List String) (oid : String) (p : Product) :
    (applyOffAdd ids oid p).offers =
      if p.pid ∈ ids then addToSet p.offers oid else p.offers := by
  unfold applyOffAdd; split <;> simp_all

@[simp] theorem applyOffPull_pid (ids : List String) (oid : String) (p : Product) :
    (applyOffPull ids oid p).pid = p.pid := by
  unfold applyOffPull; split <;> rfl

@[simp] theorem applyOffPull_campaigns (ids : List String) (oid : String) (p : Product) :
    (applyOffPull ids oid p).campaigns = p.campaigns := by
  unfold applyOffPull; split <;> rfl

theorem applyOffPull_offers (ids : List String) (oid : String) (p : Product) :
    (applyOffPull ids oid p).offers =
      if p.pid ∈ ids then pull p.offers oid else p.offers := by
  unfold applyOffPull; split <;> simp_all

theorem addCampaignToMany_nil (ps : List Product) (cid : String) :
    addCampaignToMany ps [] cid = ps := by
  unfold addCampaignToMany
  rw [show applyCampAdd [] cid = id from funext fun p => by simp [applyCampAdd], List.map_id]

theorem pullCampaignFromMany_nil (ps : List Product) (cid : String) :
    pullCampaignFromMany ps [] cid = ps := by
  unfold pullCampaignFromMany
  rw [show applyCampPull [] cid = id from funext fun p => by simp [applyCampPull], List.map_id]

theorem addOfferToMany_nil (ps : List Product) (oid : String) :
    addOfferToMany ps [] oid = ps := by
  unfold addOfferToMany
  rw [show applyOffAdd [] oid = id from funext fun p => by simp [applyOffAdd], List.map_id]

theorem pullOfferFromMany_nil (ps : List Product) (oid : String) :
    pullOfferFromMany ps [] oid = ps := by
  unfold pullOfferFromMany
  rw [show applyOffPull [] oid = id from funext fun p => by simp [applyOffPull], List.map_id]

/-! ### Unfolding lemmas for the service operations -/

theorem campaignCreate_fst (s : RefState) (freshId : String) (data : CampaignBody) :
    (campaignCreate s freshId data).1 =
      ⟨addCampaignToMany s.products (data.productsIds.getD []) freshId,
       s.campaigns ++ [⟨freshId, data.productsIds.getD []⟩], s.offers⟩ := by
  unfold campaignCreate
  cases data.productsIds with
  | none => simp [addCampaignToMany_nil]
  | some pids =>
    cases pids with
    | nil => simp [addCampaignToMany_nil]
    | cons a l => simp

theorem offerCreate_fst (s : RefState) (freshId : String) (data : OfferBody) :
    (offerCreate s freshId data).1 =
      ⟨addOfferToMany s.products (data.applicable_products.getD []) freshId,
       s.campaigns, s.offers ++ [⟨freshId, data.applicable_products.getD []⟩]⟩ := by
  unfold offerCreate
  cases data.applicable_products with
  | none => simp [addOfferToMany_nil]
  | some pids =>
    cases pids with
    | nil => simp [addOfferToMany_nil]
    | cons a l => simp

theorem campaignUpdate_eq_some (s : RefState) (id : String) (newIds : List String)
    (cOld : Campaign) (hid : isValidMongoId id = true)
    (hfind : findCampaign s id = some cOld) :
    campaignUpdate s id ⟨some newIds⟩ =
      (let s1 : RefState :=
        ⟨s.products,
         s.campaigns.map (fun c =>
           if c.cid = id then { c with productsIds := newIds } else c),
         s.offers⟩
       let toUnlink := cOld.productsIds.filter (fun pid => pid ∉ newIds)
       let toLink := newIds.filter (fun pid => pid ∉ cOld.productsIds)
       let s2 := if toUnlink.length > 0 then
           { s1 with products := pullCampaignFromMany s1.products toUnlink id }
         else s1
       let s3 := if toLink.length > 0 then
           { s2 with products := addCampaignToMany s2.products toLink id }
         else s2
       .ok (s3,
         [Evt.updatedCampaign id]
           ++ (if toUnlink.length > 0 then [Evt.pulledCampaignFromProducts toUnlink id] else [])
           ++ (if toLink.length > 0 then [Evt.addedCampaignToProducts toLink id] else [])
           ++ (if toUnlink.length > 0 ∨ toLink.length > 0 then [Evt.removedCacheProductsList] else [])
           ++ [Evt.removedCacheCampaignDetail id, Evt.removedCacheCampaigns])) := by
  unfold campaignUpdate
  simp only [hid, hfind, not_true, if_false]
  rfl

theorem campaignUpdate_eq_none (s : RefState) (id : String)
    (cOld : Campaign) (hid : isValidMongoId id = true)
    (hfind : findCampaign s id = some cOld) :
    campaignUpdate s id ⟨none⟩ =
      .ok (⟨s.products,
            s.campaigns.map (fun c =>
              if c.cid = id then c else c),
            s.offers⟩,
        [Evt.updatedCampaign id, Evt.removedCacheCampaignDetail id,
         Evt.removedCacheCampaigns]) := by
  unfold campaignUpdate
  simp only [hid, hfind, not_true, if_false]
  rfl

theorem offerUpdate_eq_some (s : RefState) (id : String) (newIds : List String)
    (oOld : Offer) (hid : isValidMongoId id = true)
    (hfind : findOffer s id = some oOld) :
    offerUpdate s id ⟨some newIds⟩ =
      (let s1 : RefState :=
        ⟨s.products, s.campaigns,
         s.offers.map (fun o =>
           if o.oid = id then { o with applicable_products := newIds } else o)⟩
       let toUnlink := oOld.applicable_products.filter (fun pid => pid ∉ newIds)
       let toLink := newIds.filter (fun pid => pid ∉ oOld.applicable_products)
       let s2 := if toUnlink.length > 0 then
           { s1 with products := pullOfferFromMany s1.products toUnlink id }
         else s1
       let s3 := if toLink.length > 0 then
           { s2 with products := addOfferToMany s2.products toLink id }
         else s2
       .ok (s3,
         [Evt.updatedOffer id]
           ++ (if toUnlink.length > 0 then [Evt.pulledOfferFromProducts toUnlink id] else [])
           ++ (if toLink.length > 0 then [Evt.addedOfferToProducts toLink id] else [])
           ++ (if toUnlink.length > 0 ∨ toLink.length > 0 then [Evt.removedCacheProductsList] else [])
           ++ [Evt.removedCacheOfferDetail id, Evt.removedCacheOffers])) := by
  unfold offerUpdate
  simp only [hid, hfind, not_true, if_false]
  rfl

theorem offerUpdate_eq_none (s : RefState) (id : String)
    (oOld : Offer) (hid : isValidMongoId id = true)
    (hfind : findOffer s id = some oOld) :
    offerUpdate s id ⟨none⟩ =
      .ok (⟨s.products,
            s.campaigns,
            s.offers.map (fun o => if o.oid = id then o else o)⟩,
        [Evt.updatedOffer id, Evt.removedCacheOfferDetail id,
         Evt.removedCacheOffers]) := by
  unfold offerUpdate
  simp only [hid, hfind, not_true, if_false]
  rfl

theorem campaignDelete_eq (s : RefState) (id : String)
    (cOld : Campaign) (hid : isValidMongoId id = true)
    (hfind : findCampaign s id = some cOld) :
    campaignDelete s id =
      (let unlinked :=
        if cOld.productsIds.length > 0 then
          ({ s with products := pullCampaignFromMany s.products cOld.productsIds id },
           [Evt.pulledCampaignFromProducts cOld.productsIds id, Evt.removedCacheProductsList])
        else (s, ([] : List Evt))
       .ok ({ unlinked.1 with
                campaigns := unlinked.1.campaigns.filter (fun c => c.cid ≠ id) },
         unlinked.2 ++ [Evt.deletedCampaign id, Evt.removedCacheCampaignDetail id,
           Evt.removedCacheCampaigns])) := by
  unfold campaignDelete
  simp only [hid, hfind, not_true, if_false]

theorem offerDelete_eq (s : RefState) (id : String)
    (oOld : Offer) (hid : isValidMongoId id = true)
    (hfind : findOffer s id = some oOld) :
    offerDelete s id =
      (let unlinked :=
        if oOld.applicable_products.length > 0 then
          ({ s with products := pullOfferFromMany s.products oOld.applicable_products id },
           [Evt.pulledOfferFromProducts oOld.applicable_products id, Evt.removedCacheProductsList])
        else (s, ([] : List Evt))
       .ok ({ unlinked.1 with
                offers := unlinked.1.offers.filter (fun o => o.oid ≠ id) },
         unlinked.2 ++ [Evt.deletedOffer id, Evt.removedCacheOfferDetail id,
           Evt.removedCacheOffers])) := by
  unfold offerDelete
  simp only [hid, hfind, not_true, if_false]

/-! ### Preservation of the bidirectional invariant by the services -/

theorem eq_of_nodup_cid {cs : List Campaign} (h : (cs.map (·.cid)).Nodup)
    {c₁ c₂ : Campaign} (h₁ : c₁ ∈ cs) (h₂ : c₂ ∈ cs) (he : c₁.cid = c₂.cid) :
    c₁ = c₂ :=
  List.inj_on_of_nodup_map h h₁ h₂ he

theorem eq_of_nodup_oid {os : List Offer} (h : (os.map (·.oid)).Nodup)
    {o₁ o₂ : Offer} (h₁ : o₁ ∈ os) (h₂ : o₂ ∈ os) (he : o₁.oid = o₂.oid) :
    o₁ = o₂ :=
  List.inj_on_of_nodup_map h h₁ h₂ he

/-- A product rewrite that keeps `pid` and `offers` cannot disturb the
offer side of the invariant. -/
theorem offerSide_map (ps : List Product) (os : List Offer) (f : Product → Product)
    (hpid : ∀ p, (f p).pid = p.pid) (hoff : ∀ p, (f p).offers = p.offers)
    (h : OfferSide ps os) : OfferSide (ps.map f) os := by
  obtain ⟨h1, h2, h3⟩ := h
  refine ⟨?_, ?_, ?_⟩
  · intro o ho x hx p' hp' hpx
    obtain ⟨p, hp, rfl⟩ := List.mem_map.1 hp'
    rw [hoff]
    exact h1 o ho x hx p hp ((hpid p) ▸ hpx)
  · intro o ho x hx
    obtain ⟨p, hp, hpx⟩ := h2 o ho x hx
    exact ⟨f p, List.mem_map_of_mem f hp, (hpid p).trans hpx⟩
  · intro p' hp' oid hoid
    obtain ⟨p, hp, rfl⟩ := List.mem_map.1 hp'
    rw [hoff] at hoid
    obtain ⟨o, ho, hoo, hpo⟩ := h3 p hp oid hoid
    exact ⟨o, ho, hoo, (hpid p) ▸ hpo⟩

/-- A product rewrite that keeps `pid` and `campaigns` cannot disturb the
campaign side of the invariant. -/
theorem campSide_map (ps : List Product) (cs : List Campaign) (f : Product → Product)
    (hpid : ∀ p, (f p).pid = p.pid) (hcamp : ∀ p, (f p).campaigns = p.campaigns)
    (h : CampSide ps cs) : CampSide (ps.map f) cs := by
  obtain ⟨h1, h2, h3⟩ := h
  refine ⟨?_, ?_, ?_⟩
  · intro c hc x hx p' hp' hpx
    obtain ⟨p, hp, rfl⟩ := List.mem_map.1 hp'
    rw [hcamp]
    exact h1 c hc x hx p hp ((hpid p) ▸ hpx)
  · intro c hc x hx
    obtain ⟨p, hp, hpx⟩ := h2 c hc x hx
    exact ⟨f p, List.mem_map_of_mem f hp, (hpid p).trans hpx⟩
  · intro p' hp' cid hcid
    obtain ⟨p, hp, rfl⟩ := List.mem_map.1 hp'
    rw [hcamp] at hcid
    obtain ⟨c, hc, hcc, hpc⟩ := h3 p hp cid hcid
    exact ⟨c, hc, hcc, (hpid p) ▸ hpc⟩

/-- `CampaignService.create` restores the campaign side: the fresh id is
added to exactly the referenced (and existing) products. -/
theorem campSide_create (ps : List Product) (cs : List Campaign)
    (freshId : String) (pids : List String)
    (h : CampSide ps cs)
    (hfreshc : ∀ c ∈ cs, c.cid ≠ freshId)
    (hfreshp : ∀ p ∈ ps, freshId ∉ p.campaigns)
    (hex : ∀ x ∈ pids, ∃ p ∈ ps, p.pid = x) :
    CampSide (addCampaignToMany ps pids freshId) (cs ++ [⟨freshId, pids⟩]) := by
  obtain ⟨h1, h2, h3⟩ := h
  refine ⟨?_, ?_, ?_⟩
  · intro c hc x hx p' hp' hpx
    obtain ⟨p, hp, rfl⟩ := List.mem_map.1 hp'
    rw [applyCampAdd_pid] at hpx
    rw [applyCampAdd_campaigns]
    rcases List.mem_append.1 hc with hc | hc
    · have hmem : c.cid ∈ p.campaigns := h1 c hc x hx p hp hpx
      split
      · exact mem_addToSet_of_mem hmem
      · exact hmem
    · obtain rfl := List.mem_singleton.1 hc
      simp only at hx ⊢
      rw [if_pos (hpx ▸ hx)]
      exact mem_addToSet_self _ _
  · intro c hc x hx
    rcases List.mem_append.1 hc with hc | hc
    · obtain ⟨p, hp, hpx⟩ := h2 c hc x hx
      exact ⟨applyCampAdd pids freshId p, List.mem_map_of_mem _ hp,
        (applyCampAdd_pid _ _ _).trans hpx⟩
    · obtain rfl := List.mem_singleton.1 hc
      obtain ⟨p, hp, hpx⟩ := hex x hx
      exact ⟨applyCampAdd pids freshId p, List.mem_map_of_mem _ hp,
        (applyCampAdd_pid _ _ _).trans hpx⟩
  · intro p' hp' cid hcid
    obtain ⟨p, hp, rfl⟩ := List.mem_map.1 hp'
    rw [applyCampAdd_campaigns] at hcid
    rw [applyCampAdd_pid]
    by_cases hin : p.pid ∈ pids
    · rw [if_pos hin] at hcid
      rcases mem_addToSet_iff.1 hcid with rfl | hcid
      · exact ⟨⟨cid, pids⟩, List.mem_append_right _ (List.mem_singleton_self _), rfl, hin⟩
      · obtain ⟨c, hc, hcc, hpc⟩ := h3 p hp cid hcid
        exact ⟨c, List.mem_append_left _ hc, hcc, hpc⟩
    · rw [if_neg hin] at hcid
      obtain ⟨c, hc, hcc, hpc⟩ := h3 p hp cid hcid
      exact ⟨c, List.mem_append_left _ hc, hcc, hpc⟩

/-- `CampaignService.update` re-establishes the campaign side after a
product-list change: removed ids are pulled, added ids are inserted. -/
theorem campSide_update (ps : List Product) (cs : List Campaign)
    (id : String) (cOld : Campaign) (newIds : List String)
    (hfind : cs.find? (fun c => c.cid == id) = some cOld)
    (hnodup : (cs.map (·.cid)).Nodup)
    (h : CampSide ps cs)
    (hex : ∀ x ∈ newIds, ∃ p ∈ ps, p.pid = x) :
    CampSide
      (addCampaignToMany
        (pullCampaignFromMany ps (cOld.productsIds.filter (fun x => x ∉ newIds)) id)
        (newIds.filter (fun x => x ∉ cOld.productsIds)) id)
      (cs.map fun c => if c.cid = id then { c with productsIds := newIds } else c) := by
  obtain ⟨h1, h2, h3⟩ := h
  have hcOld_mem : cOld ∈ cs := List.mem_of_find?_eq_some hfind
  have hcOld_cid : cOld.cid = id := by
    have hps := List.find?_some hfind
    simpa using hps
  -- abbreviations
  set U := cOld.productsIds.filter (fun x => x ∉ newIds) with hU
  set L := newIds.filter (fun x => x ∉ cOld.productsIds) with hL
  have hUmem : ∀ x, x ∈ U ↔ x ∈ cOld.productsIds ∧ x ∉ newIds := by
    intro x; simp [hU]
  have hLmem : ∀ x, x ∈ L ↔ x ∈ newIds ∧ x ∉ cOld.productsIds := by
    intro x; simp [hL]
  -- the composite product rewrite
  have hps' : addCampaignToMany (pullCampaignFromMany ps U id) L id =
      ps.map (fun p => applyCampAdd L id (applyCampPull U id p)) := by
    simp [addCampaignToMany, pullCampaignFromMany, List.map_map, Function.comp]
  rw [hps']
  set g : Product → Product := fun p => applyCampAdd L id (applyCampPull U id p) with hg
  have hgpid : ∀ p, (g p).pid = p.pid := by
    intro p; simp [hg]
  have hgcamp_mem : ∀ p (cid : String),
      cid ∈ (g p).campaigns ↔
        (p.pid ∈ L ∧ cid = id) ∨ (cid ∈ p.campaigns ∧ ¬ (p.pid ∈ U ∧ cid = id)) := by
    intro p cid
    simp only [hg, applyCampAdd_campaigns, applyCampPull_campaigns, applyCampPull_pid]
    by_cases hiL : p.pid ∈ L <;> by_cases hiU : p.pid ∈ U
    · exact absurd ((hUmem _).1 hiU).1 ((hLmem _).1 hiL).2
    · rw [if_pos hiL, if_neg hiU, mem_addToSet_iff]
      constructor
      · rintro (rfl | hc)
        · exact .inl ⟨hiL, rfl⟩
        · by_cases hcid : cid = id
          · exact .inl ⟨hiL, hcid⟩
          · exact .inr ⟨hc, fun h => hcid h.2⟩
      · rintro (⟨-, rfl⟩ | ⟨hc, -⟩)
        · exact .inl rfl
        · exact .inr hc
    · rw [if_neg hiL, if_pos hiU, mem_pull_iff]
      constructor
      · rintro ⟨hc, hne⟩
        exact .inr ⟨hc, fun hh => hne hh.2⟩
      · rintro (⟨hL', -⟩ | ⟨hc, hni⟩)
        · exact absurd hL' hiL
        · exact ⟨hc, fun he => hni ⟨hiU, he⟩⟩
    · rw [if_neg hiL, if_neg hiU]
      constructor
      · intro hc
        exact .inr ⟨hc, fun hh => hiU hh.1⟩
      · rintro (⟨hL', -⟩ | ⟨hc, -⟩)
        · exact absurd hL' hiL
        · exact hc
  refine ⟨?_, ?_, ?_⟩
  · intro c' hc' x hx p' hp' hpx
    obtain ⟨c, hc, rfl⟩ := List.mem_map.1 hc'
    obtain ⟨p, hp, rfl⟩ := List.mem_map.1 hp'
    rw [hgpid] at hpx
    rw [hgcamp_mem]
    by_cases hcid : c.cid = id
    · rw [if_pos hcid] at hx ⊢
      simp only at hx ⊢
      have hceq : c = cOld := eq_of_nodup_cid hnodup hc hcOld_mem
        (hcid.trans hcOld_cid.symm)
      subst hceq
      by_cases hiL : x ∈ L
      · exact .inl ⟨hpx ▸ hiL, hcid⟩
      · have hxold : x ∈ c.productsIds := by
          by_contra hxo
          exact hiL ((hLmem x).2 ⟨hx, hxo⟩)
        have hidc : id ∈ p.campaigns := by
          have := h1 c hc x hxold p hp hpx
          rwa [hcid] at this
        refine .inr ⟨hcid ▸ hidc, ?_⟩
        rintro ⟨hiU, -⟩
        exact ((hUmem p.pid).1 hiU).2 (hpx ▸ hx)
    · rw [if_neg hcid] at hx ⊢
      have hmem : c.cid ∈ p.campaigns := h1 c hc x hx p hp hpx
      refine .inr ⟨hmem, ?_⟩
      rintro ⟨-, hcc⟩
      exact hcid hcc
  · intro c' hc' x hx
    obtain ⟨c, hc, rfl⟩ := List.mem_map.1 hc'
    by_cases hcid : c.cid = id
    · rw [if_pos hcid] at hx
      simp only at hx
      obtain ⟨p, hp, hpx⟩ := hex x hx
      exact ⟨g p, List.mem_map_of_mem g hp, (hgpid p).trans hpx⟩
    · rw [if_neg hcid] at hx
      obtain ⟨p, hp, hpx⟩ := h2 c hc x hx
      exact ⟨g p, List.mem_map_of_mem g hp, (hgpid p).trans hpx⟩
  · intro p' hp' cid hcid
    obtain ⟨p, hp, rfl⟩ := List.mem_map.1 hp'
    rw [hgpid]
    rcases (hgcamp_mem p cid).1 hcid with ⟨hiL, rfl⟩ | ⟨hc, hnot⟩
    · refine ⟨{ cOld with productsIds := newIds }, ?_, hcOld_cid, ?_⟩
      · refine List.mem_map.2 ⟨cOld, hcOld_mem, ?_⟩
        rw [if_pos hcOld_cid]
      · exact ((hLmem p.pid).1 hiL).1
    · obtain ⟨c, hcmem, hcc, hpc⟩ := h3 p hp cid hc
      by_cases hcid' : c.cid = id
      · have hceq : c = cOld := eq_of_nodup_cid hnodup hcmem hcOld_mem
          (hcid'.trans hcOld_cid.symm)
        subst hceq
        have hpnew : p.pid ∈ newIds := by
          by_contra hnn
          exact hnot ⟨(hUmem p.pid).2 ⟨hpc, hnn⟩, hcc.symm.trans hcid'⟩
        refine ⟨{ c with productsIds := newIds }, ?_, hcc, hpnew⟩
        refine List.mem_map.2 ⟨c, hcmem, ?_⟩
        rw [if_pos hcid']
      · refine ⟨c, ?_, hcc, hpc⟩
        refine List.mem_map.2 ⟨c, hcmem, ?_⟩
        rw [if_neg hcid']

/-- `CampaignService.delete` pulls its id from every product named by the
record and then removes the record; under the invariant no reference
survives. -/
theorem campSide_delete (ps : List Product) (cs : List Campaign)
    (id : String) (cOld : Campaign)
    (hfind : cs.find? (fun c => c.cid == id) = some cOld)
    (hnodup : (cs.map (·.cid)).Nodup)
    (h : CampSide ps cs) :
    CampSide (pullCampaignFromMany ps cOld.productsIds id)
      (cs.filter (fun c => c.cid ≠ id)) := by
  obtain ⟨h1, h2, h3⟩ := h
  have hcOld_mem : cOld ∈ cs := List.mem_of_find?_eq_some hfind
  have hcOld_cid : cOld.cid = id := by
    have hps := List.find?_some hfind
    simpa using hps
  refine ⟨?_, ?_, ?_⟩
  · intro c hc x hx p' hp' hpx
    have hcm := List.mem_of_mem_filter hc
    have hcne : c.cid ≠ id := by
      have := List.of_mem_filter hc
      exact of_decide_eq_true this
    obtain ⟨p, hp, rfl⟩ := List.mem_map.1 hp'
    rw [applyCampPull_pid] at hpx
    rw [applyCampPull_campaigns]
    have hmem : c.cid ∈ p.campaigns := h1 c hcm x hx p hp hpx
    split
    · exact mem_pull_iff.2 ⟨hmem, hcne⟩
    · exact hmem
  · intro c hc x hx
    obtain ⟨p, hp, hpx⟩ := h2 c (List.mem_of_mem_filter hc) x hx
    exact ⟨applyCampPull cOld.productsIds id p, List.mem_map_of_mem _ hp,
      (applyCampPull_pid _ _ _).trans hpx⟩
  · intro p' hp' cid hcid
    obtain ⟨p, hp, rfl⟩ := List.mem_map.1 hp'
    rw [applyCampPull_campaigns] at hcid
    rw [applyCampPull_pid]
    have hmain : cid ∈ p.campaigns ∧ cid ≠ id ∨ cid ∈ p.campaigns ∧ p.pid ∉ cOld.productsIds := by
      by_cases hin : p.pid ∈ cOld.productsIds
      · rw [if_pos hin] at hcid
        exact .inl (mem_pull_iff.1 hcid)
      · rw [if_neg hin] at hcid
        exact .inr ⟨hcid, hin⟩
    rcases hmain with ⟨hc, hne⟩ | ⟨hc, hpn⟩
    · obtain ⟨c, hcm, hcc, hpc⟩ := h3 p hp cid hc
      refine ⟨c, List.mem_filter.2 ⟨hcm, decide_eq_true (hcc ▸ hne)⟩, hcc, hpc⟩
    · obtain ⟨c, hcm, hcc, hpc⟩ := h3 p hp cid hc
      have hcne : c.cid ≠ id := by
        intro he
        have : c = cOld := eq_of_nodup_cid hnodup hcm hcOld_mem (he.trans hcOld_cid.symm)
        exact hpn (this ▸ hpc)
      exact ⟨c, List.mem_filter.2 ⟨hcm, decide_eq_true hcne⟩, hcc, hpc⟩

/-- `OfferService.create` restores the offer side of the invariant. -/
theorem offerSide_create (ps : List Product) (os : List Offer)
    (freshId : String) (pids : List String)
    (h : OfferSide ps os)
    (hfreshc : ∀ c ∈ os, c.oid ≠ freshId)
    (hfreshp : ∀ p ∈ ps, freshId ∉ p.offers)
    (hex : ∀ x ∈ pids, ∃ p ∈ ps, p.pid = x) :
    OfferSide (addOfferToMany ps pids freshId) (os ++ [⟨freshId, pids⟩]) := by
  obtain ⟨h1, h2, h3⟩ := h
  refine ⟨?_, ?_, ?_⟩
  · intro c hc x hx p' hp' hpx
    obtain ⟨p, hp, rfl⟩ := List.mem_map.1 hp'
    rw [applyOffAdd_pid] at hpx
    rw [applyOffAdd_offers]
    rcases List.mem_append.1 hc with hc | hc
    · have hmem : c.oid ∈ p.offers := h1 c hc x hx p hp hpx
      split
      · exact mem_addToSet_of_mem hmem
      · exact hmem
    · obtain rfl := List.mem_singleton.1 hc
      simp only at hx ⊢
      rw [if_pos (hpx ▸ hx)]
      exact mem_addToSet_self _ _
  · intro c hc x hx
    rcases List.mem_append.1 hc with hc | hc
    · obtain ⟨p, hp, hpx⟩ := h2 c hc x hx
      exact ⟨applyOffAdd pids freshId p, List.mem_map_of_mem _ hp,
        (applyOffAdd_pid _ _ _).trans hpx⟩
    · obtain rfl := List.mem_singleton.1 hc
      obtain ⟨p, hp, hpx⟩ := hex x hx
      exact ⟨applyOffAdd pids freshId p, List.mem_map_of_mem _ hp,
        (applyOffAdd_pid _ _ _).trans hpx⟩
  · intro p' hp' oid hcid
    obtain ⟨p, hp, rfl⟩ := List.mem_map.1 hp'
    rw [applyOffAdd_offers] at hcid
    rw [applyOffAdd_pid]
    by_cases hin : p.pid ∈ pids
    · rw [if_pos hin] at hcid
      rcases mem_addToSet_iff.1 hcid with rfl | hcid
      · exact ⟨⟨oid, pids⟩, List.mem_append_right _ (List.mem_singleton_self _), rfl, hin⟩
      · obtain ⟨c, hc, hcc, hpc⟩ := h3 p hp oid hcid
        exact ⟨c, List.mem_append_left _ hc, hcc, hpc⟩
    · rw [if_neg hin] at hcid
      obtain ⟨c, hc, hcc, hpc⟩ := h3 p hp oid hcid
      exact ⟨c, List.mem_append_left _ hc, hcc, hpc⟩

/-- `OfferService.update` re-establishes the offer side after a
product-list change. -/
theorem offerSide_update (ps : List Product) (os : List Offer)
    (id : String) (oOld : Offer) (newIds : List String)
    (hfind : os.find? (fun c => c.oid == id) = some oOld)
    (hnodup : (os.map (·.oid)).Nodup)
    (h : OfferSide ps os)
    (hex : ∀ x ∈ newIds, ∃ p ∈ ps, p.pid = x) :
    OfferSide
      (addOfferToMany
        (pullOfferFromMany ps (oOld.applicable_products.filter (fun x => x ∉ newIds)) id)
        (newIds.filter (fun x => x ∉ oOld.applicable_products)) id)
      (os.map fun c => if c.oid = id then { c with applicable_products := newIds } else c) := by
  obtain ⟨h1, h2, h3⟩ := h
  have hoOld_mem : oOld ∈ os := List.mem_of_find?_eq_some hfind
  have hoOld_cid : oOld.oid = id := by
    have hps := List.find?_some hfind
    simpa using hps
  -- abbreviations
  set U := oOld.applicable_products.filter (fun x => x ∉ newIds) with hU
  set L := newIds.filter (fun x => x ∉ oOld.applicable_products) with hL
  have hUmem : ∀ x, x ∈ U ↔ x ∈ oOld.applicable_products ∧ x ∉ newIds := by
    intro x; simp [hU]
  have hLmem : ∀ x, x ∈ L ↔ x ∈ newIds ∧ x ∉ oOld.applicable_products := by
    intro x; simp [hL]
  -- the composite product rewrite
  have hps' : addOfferToMany (pullOfferFromMany ps U id) L id =
      ps.map (fun p => applyOffAdd L id (applyOffPull U id p)) := by
    simp [addOfferToMany, pullOfferFromMany, List.map_map, Function.comp]
  rw [hps']
  set g : Product → Product := fun p => applyOffAdd L id (applyOffPull U id p) with hg
  have hgpid : ∀ p, (g p).pid = p.pid := by
    intro p; simp [hg]
  have hgcamp_mem : ∀ p (oid : String),
      oid ∈ (g p).offers ↔
        (p.pid ∈ L ∧ oid = id) ∨ (oid ∈ p.offers ∧ ¬ (p.pid ∈ U ∧ oid = id)) := by
    intro p oid
    simp only [hg, applyOffAdd_offers, applyOffPull_offers, applyOffPull_pid]
    by_cases hiL : p.pid ∈ L <;> by_cases hiU : p.pid ∈ U
    · exact absurd ((hUmem _).1 hiU).1 ((hLmem _).1 hiL).2
    · rw [if_pos hiL, if_neg hiU, mem_addToSet_iff]
      constructor
      · rintro (rfl | hc)
        · exact .inl ⟨hiL, rfl⟩
        · by_cases hcid : oid = id
          · exact .inl ⟨hiL, hcid⟩
          · exact .inr ⟨hc, fun h => hcid h.2⟩
      · rintro (⟨-, rfl⟩ | ⟨hc, -⟩)
        · exact .inl rfl
        · exact .inr hc
    · rw [if_neg hiL, if_pos hiU, mem_pull_iff]
      constructor
      · rintro ⟨hc, hne⟩
        exact .inr ⟨hc, fun hh => hne hh.2⟩
      · rintro (⟨hL', -⟩ | ⟨hc, hni⟩)
        · exact absurd hL' hiL
        · exact ⟨hc, fun he => hni ⟨hiU, he⟩⟩
    · rw [if_neg hiL, if_neg hiU]
      constructor
      · intro hc
        exact .inr ⟨hc, fun hh => hiU hh.1⟩
      · rintro (⟨hL', -⟩ | ⟨hc, -⟩)
        · exact absurd hL' hiL
        · exact hc
  refine ⟨?_, ?_, ?_⟩
  · intro c' hc' x hx p' hp' hpx
    obtain ⟨c, hc, rfl⟩ := List.mem_map.1 hc'
    obtain ⟨p, hp, rfl⟩ := List.mem_map.1 hp'
    rw [hgpid] at hpx
    rw [hgcamp_mem]
    by_cases hcid : c.oid = id
    · rw [if_pos hcid] at hx ⊢
      simp only at hx ⊢
      have hceq : c = oOld := eq_of_nodup_oid hnodup hc hoOld_mem
        (hcid.trans hoOld_cid.symm)
      subst hceq
      by_cases hiL : x ∈ L
      · exact .inl ⟨hpx ▸ hiL, hcid⟩
      · have hxold : x ∈ c.applicable_products := by
          by_contra hxo
          exact hiL ((hLmem x).2 ⟨hx, hxo⟩)
        have hidc : id ∈ p.offers := by
          have := h1 c hc x hxold p hp hpx
          rwa [hcid] at this
        refine .inr ⟨hcid ▸ hidc, ?_⟩
        rintro ⟨hiU, -⟩
        exact ((hUmem p.pid).1 hiU).2 (hpx ▸ hx)
    · rw [if_neg hcid] at hx ⊢
      have hmem : c.oid ∈ p.offers := h1 c hc x hx p hp hpx
      refine .inr ⟨hmem, ?_⟩
      rintro ⟨-, hcc⟩
      exact hcid hcc
  · intro c' hc' x hx
    obtain ⟨c, hc, rfl⟩ := List.mem_map.1 hc'
    by_cases hcid : c.oid = id
    · rw [if_pos hcid] at hx
      simp only at hx
      obtain ⟨p, hp, hpx⟩ := hex x hx
      exact ⟨g p, List.mem_map_of_mem g hp, (hgpid p).trans hpx⟩
    · rw [if_neg hcid] at hx
      obtain ⟨p, hp, hpx⟩ := h2 c hc x hx
      exact ⟨g p, List.mem_map_of_mem g hp, (hgpid p).trans hpx⟩
  · intro p' hp' oid hcid
    obtain ⟨p, hp, rfl⟩ := List.mem_map.1 hp'
    rw [hgpid]
    rcases (hgcamp_mem p oid).1 hcid with ⟨hiL, rfl⟩ | ⟨hc, hnot⟩
    · refine ⟨{ oOld with applicable_products := newIds }, ?_, hoOld_cid, ?_⟩
      · refine List.mem_map.2 ⟨oOld, hoOld_mem, ?_⟩
        rw [if_pos hoOld_cid]
      · exact ((hLmem p.pid).1 hiL).1
    · obtain ⟨c, hcmem, hcc, hpc⟩ := h3 p hp oid hc
      by_cases hcid' : c.oid = id
      · have hceq : c = oOld := eq_of_nodup_oid hnodup hcmem hoOld_mem
          (hcid'.trans hoOld_cid.symm)
        subst hceq
        have hpnew : p.pid ∈ newIds := by
          by_contra hnn
          exact hnot ⟨(hUmem p.pid).2 ⟨hpc, hnn⟩, hcc.symm.trans hcid'⟩
        refine ⟨{ c with applicable_products := newIds }, ?_, hcc, hpnew⟩
        refine List.mem_map.2 ⟨c, hcmem, ?_⟩
        rw [if_pos hcid']
      · refine ⟨c, ?_, hcc, hpc⟩
        refine List.mem_map.2 ⟨c, hcmem, ?_⟩
        rw [if_neg hcid']

/-- `OfferService.delete` pulls its id from every product named by the
record and then removes the record. -/
theorem offerSide_delete (ps : List Product) (os : List Offer)
    (id : String) (oOld : Offer)
    (hfind : os.find? (fun c => c.oid == id) = some oOld)
    (hnodup : (os.map (·.oid)).Nodup)
    (h : OfferSide ps os) :
    OfferSide (pullOfferFromMany ps oOld.applicable_products id)
      (os.filter (fun c => c.oid ≠ id)) := by
  obtain ⟨h1, h2, h3⟩ := h
  have hoOld_mem : oOld ∈ os := List.mem_of_find?_eq_some hfind
  have hoOld_cid : oOld.oid = id := by
    have hps := List.find?_some hfind
    simpa using hps
  refine ⟨?_, ?_, ?_⟩
  · intro c hc x hx p' hp' hpx
    have hcm := List.mem_of_mem_filter hc
    have hcne : c.oid ≠ id := by
      have := List.of_mem_filter hc
      exact of_decide_eq_true this
    obtain ⟨p, hp, rfl⟩ := List.mem_map.1 hp'
    rw [applyOffPull_pid] at hpx
    rw [applyOffPull_offers]
    have hmem : c.oid ∈ p.offers := h1 c hcm x hx p hp hpx
    split
    · exact mem_pull_iff.2 ⟨hmem, hcne⟩
    · exact hmem
  · intro c hc x hx
    obtain ⟨p, hp, hpx⟩ := h2 c (List.mem_of_mem_filter hc) x hx
    exact ⟨applyOffPull oOld.applicable_products id p, List.mem_map_of_mem _ hp,
      (applyOffPull_pid _ _ _).trans hpx⟩
  · intro p' hp' oid hcid
    obtain ⟨p, hp, rfl⟩ := List.mem_map.1 hp'
    rw [applyOffPull_offers] at hcid
    rw [applyOffPull_pid]
    have hmain : oid ∈ p.offers ∧ oid ≠ id ∨ oid ∈ p.offers ∧ p.pid ∉ oOld.applicable_products := by
      by_cases hin : p.pid ∈ oOld.applicable_products
      · rw [if_pos hin] at hcid
        exact .inl (mem_pull_iff.1 hcid)
      · rw [if_neg hin] at hcid
        exact .inr ⟨hcid, hin⟩
    rcases hmain with ⟨hc, hne⟩ | ⟨hc, hpn⟩
    · obtain ⟨c, hcm, hcc, hpc⟩ := h3 p hp oid hc
      refine ⟨c, List.mem_filter.2 ⟨hcm, decide_eq_true (hcc ▸ hne)⟩, hcc, hpc⟩
    · obtain ⟨c, hcm, hcc, hpc⟩ := h3 p hp oid hc
      have hcne : c.oid ≠ id := by
        intro he
        have : c = oOld := eq_of_nodup_oid hnodup hcm hoOld_mem (he.trans hoOld_cid.symm)
        exact hpn (this ▸ hpc)
      exact ⟨c, List.mem_filter.2 ⟨hcm, decide_eq_true hcne⟩, hcc, hpc⟩


/-! ### Glue lemmas for the preservation argument -/

theorem forall₂_map_self {α : Type _} (R : α → α → Prop) (f : α → α) (l : List α)
    (h : ∀ a ∈ l, R a (f a)) : List.Forall₂ R l (l.map f) := by
  induction l with
  | nil => exact .nil
  | cons a t ih =>
    exact .cons (h a (List.mem_cons_self a t)) (ih fun a' ha' => h a' (List.mem_cons_of_mem _ ha'))

theorem map_key_map {α κ : Type _} (l : List α) (f : α → α) (k : α → κ)
    (hf : ∀ a, k (f a) = k a) : (l.map f).map k = l.map k := by
  induction l with
  | nil => rfl
  | cons a t ih => simp [hf a, ih]

theorem campaignUpdate_state_some (s : RefState) (id : String) (newIds : List String)
    (cOld : Campaign) (hid : isValidMongoId id = true)
    (hfind : findCampaign s id = some cOld) :
    okOr s (campaignUpdate s id ⟨some newIds⟩) =
      ⟨addCampaignToMany
          (pullCampaignFromMany s.products (cOld.productsIds.filter (fun x => x ∉ newIds)) id)
          (newIds.filter (fun x => x ∉ cOld.productsIds)) id,
       s.campaigns.map (fun c => if c.cid = id then { c with productsIds := newIds } else c),
       s.offers⟩ := by
  by_cases hU : cOld.productsIds.filter (fun x => x ∉ newIds) = [] <;>
    by_cases hL : newIds.filter (fun x => x ∉ cOld.productsIds) = [] <;>
      [skip; skip; skip; skip] <;>
    · have hU' := hU
      have hL' := hL
      simp only [decide_not] at hU' hL'
      simp [campaignUpdate, hid, hfind, okOr, List.length_pos, hU', hL',
        pullCampaignFromMany_nil, addCampaignToMany_nil]

theorem campaignUpdate_state_none (s : RefState) (id : String)
    (cOld : Campaign) (hid : isValidMongoId id = true)
    (hfind : findCampaign s id = some cOld) :
    okOr s (campaignUpdate s id ⟨none⟩) = s := by
  simp [campaignUpdate, hid, hfind, okOr]

theorem campaignDelete_state (s : RefState) (id : String)
    (cOld : Campaign) (hid : isValidMongoId id = true)
    (hfind : findCampaign s id = some cOld) :
    okOr s (campaignDelete s id) =
      ⟨pullCampaignFromMany s.products cOld.productsIds id,
       s.campaigns.filter (fun c => c.cid ≠ id), s.offers⟩ := by
  by_cases hP : cOld.productsIds = [] <;>
    simp [campaignDelete, hid, hfind, okOr, List.length_pos, hP, pullCampaignFromMany_nil]

theorem offerUpdate_state_some (s : RefState) (id : String) (newIds : List String)
    (oOld : Offer) (hid : isValidMongoId id = true)
    (hfind : findOffer s id = some oOld) :
    okOr s (offerUpdate s id ⟨some newIds⟩) =
      ⟨addOfferToMany
          (pullOfferFromMany s.products (oOld.applicable_products.filter (fun x => x ∉ newIds)) id)
          (newIds.filter (fun x => x ∉ oOld.applicable_products)) id,
       s.campaigns,
       s.offers.map (fun o => if o.oid = id then { o with applicable_products := newIds } else o)⟩ := by
  by_cases hU : oOld.applicable_products.filter (fun x => x ∉ newIds) = [] <;>
    by_cases hL : newIds.filter (fun x => x ∉ oOld.applicable_products) = [] <;>
      [skip; skip; skip; skip] <;>
    · have hU' := hU
      have hL' := hL
      simp only [decide_not] at hU' hL'
      simp [offerUpdate, hid, hfind, okOr, List.length_pos, hU', hL',
        pullOfferFromMany_nil, addOfferToMany_nil]

theorem offerUpdate_state_none (s : RefState) (id : String)
    (oOld : Offer) (hid : isValidMongoId id = true)
    (hfind : findOffer s id = some oOld) :
    okOr s (offerUpdate s id ⟨none⟩) = s := by
  simp [offerUpdate, hid, hfind, okOr]

theorem offerDelete_state (s : RefState) (id : String)
    (oOld : Offer) (hid : isValidMongoId id = true)
    (hfind : findOffer s id = some oOld) :
    okOr s (offerDelete s id) =
      ⟨pullOfferFromMany s.products oOld.applicable_products id,
       s.campaigns, s.offers.filter (fun o => o.oid ≠ id)⟩ := by
  by_cases hP : oOld.applicable_products = [] <;>
    simp [offerDelete, hid, hfind, okOr, List.length_pos, hP, pullOfferFromMany_nil]

theorem cid_update_key (id : String) (newIds : List String) :
    ∀ c : Campaign,
      ((fun c => if c.cid = id then { c with productsIds := newIds } else c) c).cid = c.cid := by
  intro c; dsimp only; split <;> rfl

theorem oid_update_key (id : String) (newIds : List String) :
    ∀ o : Offer,
      ((fun o => if o.oid = id then { o with applicable_products := newIds } else o) o).oid = o.oid := by
  intro o; dsimp only; split <;> rfl

/-- One valid `CampaignService` / `OfferService` operation preserves
well-formedness and the bidirectional invariant. -/
theorem applyRefOp_preserve (s : RefState) (op : RefOp)
    (hwf : WFIds s) (hinv : BidirInv s) (hval : validRefOp s op = true) :
    WFIds (applyRefOp s op) ∧ BidirInv (applyRefOp s op) := by
  obtain ⟨hwfp, hwfc, hwfo⟩ := hwf
  obtain ⟨hc, ho⟩ := hinv
  cases op with
  | campCreate freshId data =>
    simp only [validRefOp, Bool.and_eq_true, List.all_eq_true, List.any_eq_true,
      decide_eq_true_eq] at hval
    obtain ⟨⟨hfc, hfp⟩, hex⟩ := hval
    show WFIds (campaignCreate s freshId data).1 ∧ BidirInv (campaignCreate s freshId data).1
    rw [campaignCreate_fst]
    refine ⟨⟨?_, ?_, hwfo⟩, ?_, ?_⟩
    · show ((addCampaignToMany s.products (data.productsIds.getD []) freshId).map (·.pid)).Nodup
      rw [addCampaignToMany, map_key_map _ _ _ (fun p => applyCampAdd_pid _ _ p)]
      exact hwfp
    · show (((s.campaigns ++ [(⟨freshId, data.productsIds.getD []⟩ : Campaign)]).map (·.cid))).Nodup
      rw [List.map_append]
      refine List.Nodup.append hwfc (List.nodup_singleton _) ?_
      intro a ha hb
      obtain ⟨c, hcm, rfl⟩ := List.mem_map.1 ha
      simp only [List.map_cons, List.map_nil, List.mem_singleton] at hb
      exact hfc c hcm hb
    · exact campSide_create s.products s.campaigns freshId _ hc hfc hfp hex
    · exact offerSide_map s.products s.offers _
        (fun p => applyCampAdd_pid _ _ p) (fun p => applyCampAdd_offers _ _ p) ho
  | campUpdate id data =>
    simp only [validRefOp, List.all_eq_true, List.any_eq_true, decide_eq_true_eq] at hval
    show WFIds (okOr s (campaignUpdate s id data)) ∧ BidirInv (okOr s (campaignUpdate s id data))
    by_cases hid : isValidMongoId id
    · cases hfind : findCampaign s id with
      | none =>
        simp only [campaignUpdate, hid, hfind, not_true, if_false]
        exact ⟨⟨hwfp, hwfc, hwfo⟩, hc, ho⟩
      | some cOld =>
        obtain ⟨pi⟩ := data
        cases pi with
        | none =>
          rw [campaignUpdate_state_none s id cOld hid hfind]
          exact ⟨⟨hwfp, hwfc, hwfo⟩, hc, ho⟩
        | some newIds =>
          rw [campaignUpdate_state_some s id newIds cOld hid hfind]
          simp only [Option.getD_some] at hval
          refine ⟨⟨?_, ?_, hwfo⟩, ?_, ?_⟩
          · show ((addCampaignToMany
                (pullCampaignFromMany s.products
                  (cOld.productsIds.filter (fun x => x ∉ newIds)) id)
                (newIds.filter (fun x => x ∉ cOld.productsIds)) id).map (·.pid)).Nodup
            rw [addCampaignToMany, pullCampaignFromMany,
              map_key_map _ _ _ (fun p => applyCampAdd_pid _ _ p),
              map_key_map _ _ _ (fun p => applyCampPull_pid _ _ p)]
            exact hwfp
          · show ((s.campaigns.map
                (fun c => if c.cid = id then { c with productsIds := newIds } else c)).map
                  (·.cid)).Nodup
            rw [map_key_map _ _ _ (cid_update_key id newIds)]
            exact hwfc
          · exact campSide_update s.products s.campaigns id cOld newIds hfind hwfc hc hval
          · rw [addCampaignToMany, pullCampaignFromMany]
            refine offerSide_map _ s.offers _
              (fun p => applyCampAdd_pid _ _ p) (fun p => applyCampAdd_offers _ _ p) ?_
            exact offerSide_map _ s.offers _
              (fun p => applyCampPull_pid _ _ p) (fun p => applyCampPull_offers _ _ p) ho
    · simp only [campaignUpdate, hid, not_false_iff, if_true]
      exact ⟨⟨hwfp, hwfc, hwfo⟩, hc, ho⟩
  | campDelete id =>
    show WFIds (okOr s (campaignDelete s id)) ∧ BidirInv (okOr s (campaignDelete s id))
    by_cases hid : isValidMongoId id
    · cases hfind : findCampaign s id with
      | none =>
        simp only [campaignDelete, hid, hfind, not_true, if_false]
        exact ⟨⟨hwfp, hwfc, hwfo⟩, hc, ho⟩
      | some cOld =>
        rw [campaignDelete_state s id cOld hid hfind]
        refine ⟨⟨?_, ?_, hwfo⟩, ?_, ?_⟩
        · show ((pullCampaignFromMany s.products cOld.productsIds id).map (·.pid)).Nodup
          rw [pullCampaignFromMany, map_key_map _ _ _ (fun p => applyCampPull_pid _ _ p)]
          exact hwfp
        · exact List.Nodup.sublist (List.Sublist.map _ (List.filter_sublist _)) hwfc
        · exact campSide_delete s.products s.campaigns id cOld hfind hwfc hc
        · rw [pullCampaignFromMany]
          exact offerSide_map _ s.offers _
            (fun p => applyCampPull_pid _ _ p) (fun p => applyCampPull_offers _ _ p) ho
    · simp only [campaignDelete, hid, not_false_iff, if_true]
      exact ⟨⟨hwfp, hwfc, hwfo⟩, hc, ho⟩
  | offCreate freshId data =>
    simp only [validRefOp, Bool.and_eq_true, List.all_eq_true, List.any_eq_true,
      decide_eq_true_eq] at hval
    obtain ⟨⟨hfo, hfp⟩, hex⟩ := hval
    show WFIds (offerCreate s freshId data).1 ∧ BidirInv (offerCreate s freshId data).1
    rw [offerCreate_fst]
    refine ⟨⟨?_, hwfc, ?_⟩, ?_, ?_⟩
    · show ((addOfferToMany s.products (data.applicable_products.getD []) freshId).map (·.pid)).Nodup
      rw [addOfferToMany, map_key_map _ _ _ (fun p => applyOffAdd_pid _ _ p)]
      exact hwfp
    · show (((s.offers ++ [(⟨freshId, data.applicable_products.getD []⟩ : Offer)]).map (·.oid))).Nodup
      rw [List.map_append]
      refine List.Nodup.append hwfo (List.nodup_singleton _) ?_
      intro a ha hb
      obtain ⟨o, hom, rfl⟩ := List.mem_map.1 ha
      simp only [List.map_cons, List.map_nil, List.mem_singleton] at hb
      exact hfo o hom hb
    · exact campSide_map s.products s.campaigns _
        (fun p => applyOffAdd_pid _ _ p) (fun p => applyOffAdd_campaigns _ _ p) hc
    · exact offerSide_create s.products s.offers freshId _ ho hfo hfp hex
  | offUpdate id data =>
    simp only [validRefOp, List.all_eq_true, List.any_eq_true, decide_eq_true_eq] at hval
    show WFIds (okOr s (offerUpdate s id data)) ∧ BidirInv (okOr s (offerUpdate s id data))
    by_cases hid : isValidMongoId id
    · cases hfind : findOffer s id with
      | none =>
        simp only [offerUpdate, hid, hfind, not_true, if_false]
        exact ⟨⟨hwfp, hwfc, hwfo⟩, hc, ho⟩
      | some oOld =>
        obtain ⟨pi⟩ := data
        cases pi with
        | none =>
          rw [offerUpdate_state_none s id oOld hid hfind]
          exact ⟨⟨hwfp, hwfc, hwfo⟩, hc, ho⟩
        | some newIds =>
          rw [offerUpdate_state_some s id newIds oOld hid hfind]
          simp only [Option.getD_some] at hval
          refine ⟨⟨?_, hwfc, ?_⟩, ?_, ?_⟩
          · show ((addOfferToMany
                (pullOfferFromMany s.products
                  (oOld.applicable_products.filter (fun x => x ∉ newIds)) id)
                (newIds.filter (fun x => x ∉ oOld.applicable_products)) id).map (·.pid)).Nodup
            rw [addOfferToMany, pullOfferFromMany,
              map_key_map _ _ _ (fun p => applyOffAdd_pid _ _ p),
              map_key_map _ _ _ (fun p => applyOffPull_pid _ _ p)]
            exact hwfp
          · show ((s.offers.map
                (fun o => if o.oid = id then { o with applicable_products := newIds } else o)).map
                  (·.oid)).Nodup
            rw [map_key_map _ _ _ (oid_update_key id newIds)]
            exact hwfo
          · rw [addOfferToMany, pullOfferFromMany]
            refine campSide_map _ s.campaigns _
              (fun p => applyOffAdd_pid _ _ p) (fun p => applyOffAdd_campaigns _ _ p) ?_
            exact campSide_map _ s.campaigns _
              (fun p => applyOffPull_pid _ _ p) (fun p => applyOffPull_campaigns _ _ p) hc
          · exact offerSide_update s.products s.offers id oOld newIds hfind hwfo ho hval
    · simp only [offerUpdate, hid, not_false_iff, if_true]
      exact ⟨⟨hwfp, hwfc, hwfo⟩, hc, ho⟩
  | offDelete id =>
    show WFIds (okOr s (offerDelete s id)) ∧ BidirInv (okOr s (offerDelete s id))
    by_cases hid : isValidMongoId id
    · cases hfind : findOffer s id with
      | none =>
        simp only [offerDelete, hid, hfind, not_true, if_false]
        exact ⟨⟨hwfp, hwfc, hwfo⟩, hc, ho⟩
      | some oOld =>
        rw [offerDelete_state s id oOld hid hfind]
        refine ⟨⟨?_, hwfc, ?_⟩, ?_, ?_⟩
        · show ((pullOfferFromMany s.products oOld.applicable_products id).map (·.pid)).Nodup
          rw [pullOfferFromMany, map_key_map _ _ _ (fun p => applyOffPull_pid _ _ p)]
          exact hwfp
        · exact List.Nodup.sublist (List.Sublist.map _ (List.filter_sublist _)) hwfo
        · rw [pullOfferFromMany]
          exact campSide_map _ s.campaigns _
            (fun p => applyOffPull_pid _ _ p) (fun p => applyOffPull_campaigns _ _ p) hc
        · exact offerSide_delete s.products s.offers id oOld hfind hwfo ho
    · simp only [offerDelete, hid, not_false_iff, if_true]
      exact ⟨⟨hwfp, hwfc, hwfo⟩, hc, ho⟩
  | linkCampaigns id campaignIds => simp [validRefOp] at hval
  | unlinkCampaign id campaignId => simp [validRefOp] at hval
  | linkOffers id offerIds => simp [validRefOp] at hval
  | unlinkOffer id offerId => simp [validRefOp] at hval

theorem runRefOps_preserve (ops : List RefOp) :
    ∀ s : RefState, WFIds s → BidirInv s → validRefOps s ops = true →
      WFIds (runRefOps s ops) ∧ BidirInv (runRefOps s ops) := by
  induction ops with
  | nil => exact fun s hwf hinv _ => ⟨hwf, hinv⟩
  | cons op rest ih =>
    intro s hwf hinv hval
    simp only [validRefOps, Bool.and_eq_true] at hval
    obtain ⟨hop, hrest⟩ := hval
    obtain ⟨hwf', hinv'⟩ := applyRefOp_preserve s op hwf hinv hop
    exact ih (applyRefOp s op) hwf' hinv' hrest

/-! ## Claim C1 -/

/-- C1, amended.  The bidirectional reference invariant holds in every
state reachable through `CampaignService`/`OfferService` create, update
and delete (invoked with fresh driver ids on create and product-ID lists
naming existing products), outside of an in-flight mutation.  It is not
maintained by `ProductService.linkCampaigns` / `unlinkCampaign` /
`linkOffers` / `unlinkOffer`, which update only the product-side array
(see the counterexample). -/
theorem bidir_invariant_campaign_offer_ops (s : RefState) (ops : List RefOp)
    (hwf : WFIds s) (hinv : BidirInv s) (hops : validRefOps s ops = true) :
    BidirInv (runRefOps s ops) :=
  (runRefOps_preserve ops s hwf hinv hops).2

/-- Concrete run of the amended C1 theorem: create a campaign over an
existing product, update its product list to empty, delete it. -/
theorem bidir_invariant_campaign_offer_ops_witness :
    WFIds ⟨[{ pid := "aaaaaaaaaaaaaaaaaaaaaaaa" }], [], []⟩
    ∧ BidirInv ⟨[{ pid := "aaaaaaaaaaaaaaaaaaaaaaaa" }], [], []⟩
    ∧ validRefOps ⟨[{ pid := "aaaaaaaaaaaaaaaaaaaaaaaa" }], [], []⟩
        [.campCreate "bbbbbbbbbbbbbbbbbbbbbbbb" ⟨some ["aaaaaaaaaaaaaaaaaaaaaaaa"]⟩,
         .campUpdate "bbbbbbbbbbbbbbbbbbbbbbbb" ⟨some []⟩,
         .campDelete "bbbbbbbbbbbbbbbbbbbbbbbb"] = true
    ∧ BidirInv (runRefOps ⟨[{ pid := "aaaaaaaaaaaaaaaaaaaaaaaa" }], [], []⟩
        [.campCreate "bbbbbbbbbbbbbbbbbbbbbbbb" ⟨some ["aaaaaaaaaaaaaaaaaaaaaaaa"]⟩,
         .campUpdate "bbbbbbbbbbbbbbbbbbbbbbbb" ⟨some []⟩,
         .campDelete "bbbbbbbbbbbbbbbbbbbbbbbb"]) :=
  ⟨by decide, by decide, by decide,
    bidir_invariant_campaign_offer_ops _ _ (by decide) (by decide) (by decide)⟩

/-- C1 as frozen is false: from an invariant-satisfying state, the claim's
own operation set (campaign create then `ProductService.linkCampaigns`)
reaches a state in which the product references the campaign but the
campaign's `applies_to.productsIds` does not name the product. -/
theorem linkCampaigns_breaks_bidir :
    BidirInv (⟨[{ pid := "aaaaaaaaaaaaaaaaaaaaaaaa" }], [], []⟩ : RefState)
    ∧ ¬ BidirInv (runRefOps ⟨[{ pid := "aaaaaaaaaaaaaaaaaaaaaaaa" }], [], []⟩
        [.campCreate "bbbbbbbbbbbbbbbbbbbbbbbb" ⟨some []⟩,
         .linkCampaigns "aaaaaaaaaaaaaaaaaaaaaaaa" ["bbbbbbbbbbbbbbbbbbbbbbbb"]]) :=
  ⟨by decide, by decide⟩

/-! ## Claim C2 — symmetric difference on update -/

/-- Pointwise effect of the update's unlink/link pair on one product. -/
theorem campUpdate_pointwise (oldIds newIds : List String) (id : String) (p : Product) :
    (applyCampAdd (newIds.filter (fun x => x ∉ oldIds)) id
        (applyCampPull (oldIds.filter (fun x => x ∉ newIds)) id p)).pid = p.pid
    ∧ (p.pid ∈ oldIds → p.pid ∉ newIds →
        id ∉ (applyCampAdd (newIds.filter (fun x => x ∉ oldIds)) id
          (applyCampPull (oldIds.filter (fun x => x ∉ newIds)) id p)).campaigns)
    ∧ (p.pid ∈ newIds → p.pid ∉ oldIds →
        id ∈ (applyCampAdd (newIds.filter (fun x => x ∉ oldIds)) id
          (applyCampPull (oldIds.filter (fun x => x ∉ newIds)) id p)).campaigns)
    ∧ (p.pid ∈ newIds → p.pid ∈ oldIds →
        (id ∈ (applyCampAdd (newIds.filter (fun x => x ∉ oldIds)) id
          (applyCampPull (oldIds.filter (fun x => x ∉ newIds)) id p)).campaigns
          ↔ id ∈ p.campaigns)) := by
  refine ⟨by simp, ?_, ?_, ?_⟩
  · intro hold hnew
    have hU : p.pid ∈ oldIds.filter (fun x => x ∉ newIds) :=
      List.mem_filter.2 ⟨hold, by simpa using hnew⟩
    have hL : p.pid ∉ newIds.filter (fun x => x ∉ oldIds) :=
      fun h => hnew (List.mem_filter.1 h).1
    rw [applyCampAdd_campaigns, applyCampPull_pid, if_neg hL,
      applyCampPull_campaigns, if_pos hU]
    intro hmem
    exact (mem_pull_iff.1 hmem).2 rfl
  · intro hnew hold
    have hL : p.pid ∈ newIds.filter (fun x => x ∉ oldIds) :=
      List.mem_filter.2 ⟨hnew, by simpa using hold⟩
    rw [applyCampAdd_campaigns, applyCampPull_pid, if_pos hL]
    exact mem_addToSet_self _ _
  · intro hnew hold
    have hU : p.pid ∉ oldIds.filter (fun x => x ∉ newIds) := by
      intro h
      have := (List.mem_filter.1 h).2
      simp only [decide_eq_true_eq] at this
      exact this hnew
    have hL : p.pid ∉ newIds.filter (fun x => x ∉ oldIds) := by
      intro h
      have := (List.mem_filter.1 h).2
      simp only [decide_eq_true_eq] at this
      exact this hold
    rw [applyCampAdd_campaigns, applyCampPull_pid, if_neg hL,
      applyCampPull_campaigns, if_neg hU]

/-- Pointwise effect of the offer update's unlink/link pair. -/
theorem offUpdate_pointwise (oldIds newIds : List String) (id : String) (p : Product) :
    (applyOffAdd (newIds.filter (fun x => x ∉ oldIds)) id
        (applyOffPull (oldIds.filter (fun x => x ∉ newIds)) id p)).pid = p.pid
    ∧ (p.pid ∈ oldIds → p.pid ∉ newIds →
        id ∉ (applyOffAdd (newIds.filter (fun x => x ∉ oldIds)) id
          (applyOffPull (oldIds.filter (fun x => x ∉ newIds)) id p)).offers)
    ∧ (p.pid ∈ newIds → p.pid ∉ oldIds →
        id ∈ (applyOffAdd (newIds.filter (fun x => x ∉ oldIds)) id
          (applyOffPull (oldIds.filter (fun x => x ∉ newIds)) id p)).offers)
    ∧ (p.pid ∈ newIds → p.pid ∈ oldIds →
        (id ∈ (applyOffAdd (newIds.filter (fun x => x ∉ oldIds)) id
          (applyOffPull (oldIds.filter (fun x => x ∉ newIds)) id p)).offers
          ↔ id ∈ p.offers)) := by
  refine ⟨by simp, ?_, ?_, ?_⟩
  · intro hold hnew
    have hU : p.pid ∈ oldIds.filter (fun x => x ∉ newIds) :=
      List.mem_filter.2 ⟨hold, by simpa using hnew⟩
    have hL : p.pid ∉ newIds.filter (fun x => x ∉ oldIds) :=
      fun h => hnew (List.mem_filter.1 h).1
    rw [applyOffAdd_offers, applyOffPull_pid, if_neg hL,
      applyOffPull_offers, if_pos hU]
    intro hmem
    exact (mem_pull_iff.1 hmem).2 rfl
  · intro hnew hold
    have hL : p.pid ∈ newIds.filter (fun x => x ∉ oldIds) :=
      List.mem_filter.2 ⟨hnew, by simpa using hold⟩
    rw [applyOffAdd_offers, applyOffPull_pid, if_pos hL]
    exact mem_addToSet_self _ _
  · intro hnew hold
    have hU : p.pid ∉ oldIds.filter (fun x => x ∉ newIds) := by
      intro h
      have := (List.mem_filter.1 h).2
      simp only [decide_eq_true_eq] at this
      exact this hnew
    have hL : p.pid ∉ newIds.filter (fun x => x ∉ oldIds) := by
      intro h
      have := (List.mem_filter.1 h).2
      simp only [decide_eq_true_eq] at this
      exact this hold
    rw [applyOffAdd_offers, applyOffPull_pid, if_neg hL,
      applyOffPull_offers, if_neg hU]

/-- The update emits the products-list invalidation exactly when the
unlink or link set is non-empty. -/
theorem campaignUpdate_evts_mem (s : RefState) (id : String) (newIds : List String)
    (cOld : Campaign) (s' : RefState) (evts : List Evt)
    (hid : isValidMongoId id = true)
    (hfind : findCampaign s id = some cOld)
    (hok : campaignUpdate s id ⟨some newIds⟩ = .ok (s', evts)) :
    Evt.removedCacheProductsList ∈ evts ↔
      ¬(cOld.productsIds.filter (fun x => x ∉ newIds) = []
        ∧ newIds.filter (fun x => x ∉ cOld.productsIds) = []) := by
  rw [campaignUpdate_eq_some s id newIds cOld hid hfind] at hok
  by_cases hU : cOld.productsIds.filter (fun x => x ∉ newIds) = [] <;>
    by_cases hL : newIds.filter (fun x => x ∉ cOld.productsIds) = []
  all_goals
    (have hU' := hU
     have hL' := hL
     simp only [decide_not] at hU' hL'
     simp only [decide_not] at hok
     simp only [List.length_pos, ne_eq, hU', hL', List.length_nil, lt_self_iff_false,
       not_false_iff, not_true, if_true, if_false, or_self, or_true, true_or, or_false,
       false_or, List.append_assoc, List.cons_append, List.nil_append, List.append_nil,
       Except.ok.injEq, Prod.mk.injEq] at hok
     obtain ⟨-, he⟩ := hok
     subst he)
  · exact iff_of_false (by simp) (fun hcon => hcon ⟨hU, hL⟩)
  · exact iff_of_true (by simp) (fun hcon => hL hcon.2)
  · exact iff_of_true (by simp) (fun hcon => hU hcon.1)
  · exact iff_of_true (by simp) (fun hcon => hU hcon.1)

theorem offerUpdate_evts_mem (s : RefState) (id : String) (newIds : List String)
    (oOld : Offer) (s' : RefState) (evts : List Evt)
    (hid : isValidMongoId id = true)
    (hfind : findOffer s id = some oOld)
    (hok : offerUpdate s id ⟨some newIds⟩ = .ok (s', evts)) :
    Evt.removedCacheProductsList ∈ evts ↔
      ¬(oOld.applicable_products.filter (fun x => x ∉ newIds) = []
        ∧ newIds.filter (fun x => x ∉ oOld.applicable_products) = []) := by
  rw [offerUpdate_eq_some s id newIds oOld hid hfind] at hok
  by_cases hU : oOld.applicable_products.filter (fun x => x ∉ newIds) = [] <;>
    by_cases hL : newIds.filter (fun x => x ∉ oOld.applicable_products) = []
  all_goals
    (have hU' := hU
     have hL' := hL
     simp only [decide_not] at hU' hL'
     simp only [decide_not] at hok
     simp only [List.length_pos, ne_eq, hU', hL', List.length_nil, lt_self_iff_false,
       not_false_iff, not_true, if_true, if_false, or_self, or_true, true_or, or_false,
       false_or, List.append_assoc, List.cons_append, List.nil_append, List.append_nil,
       Except.ok.injEq, Prod.mk.injEq] at hok
     obtain ⟨-, he⟩ := hok
     subst he)
  · exact iff_of_false (by simp) (fun hcon => hcon ⟨hU, hL⟩)
  · exact iff_of_true (by simp) (fun hcon => hL hcon.2)
  · exact iff_of_true (by simp) (fun hcon => hU hcon.1)
  · exact iff_of_true (by simp) (fun hcon => hU hcon.1)

/-- Non-emptiness of the unlink/link filters is exactly non-emptiness of
the symmetric difference. -/
theorem filter_nonempty_symmdiff (oldIds newIds : List String) :
    (¬(oldIds.filter (fun x => x ∉ newIds) = []
        ∧ newIds.filter (fun x => x ∉ oldIds) = []))
      ↔ (∃ x ∈ oldIds, x ∉ newIds) ∨ (∃ x ∈ newIds, x ∉ oldIds) := by
  rw [not_and_or]
  constructor
  · rintro (h | h)
    · obtain ⟨x, hx⟩ := List.exists_mem_of_ne_nil _ h
      have hx' := List.mem_filter.1 hx
      exact .inl ⟨x, hx'.1, by simpa using hx'.2⟩
    · obtain ⟨x, hx⟩ := List.exists_mem_of_ne_nil _ h
      have hx' := List.mem_filter.1 hx
      exact .inr ⟨x, hx'.1, by simpa using hx'.2⟩
  · rintro (⟨x, hxo, hxn⟩ | ⟨x, hxn, hxo⟩)
    · refine .inl fun hnil => ?_
      have hm : x ∈ oldIds.filter (fun x => x ∉ newIds) :=
        List.mem_filter.2 ⟨hxo, by simpa using hxn⟩
      rw [hnil] at hm
      exact List.not_mem_nil x hm
    · refine .inr fun hnil => ?_
      have hm : x ∈ newIds.filter (fun x => x ∉ oldIds) :=
        List.mem_filter.2 ⟨hxn, by simpa using hxo⟩
      rw [hnil] at hm
      exact List.not_mem_nil x hm

/-- C2.  A Campaign/Offer update whose payload carries a product-ID list
pulls the entity id from exactly the products dropped from the list,
inserts it into exactly the products newly added, leaves products present
in both lists referencing it as before, and emits the products-list cache
invalidation iff the symmetric difference of the two lists is non-empty. -/
theorem update_symmetric_difference :
    (∀ (s : RefState) (id : String) (newIds : List String) (cOld : Campaign)
        (s' : RefState) (evts : List Evt),
      findCampaign s id = some cOld →
      campaignUpdate s id ⟨some newIds⟩ = .ok (s', evts) →
      List.Forall₂ (fun p p' : Product =>
          p'.pid = p.pid
          ∧ (p.pid ∈ cOld.productsIds → p.pid ∉ newIds → id ∉ p'.campaigns)
          ∧ (p.pid ∈ newIds → p.pid ∉ cOld.productsIds → id ∈ p'.campaigns)
          ∧ (p.pid ∈ newIds → p.pid ∈ cOld.productsIds →
              (id ∈ p'.campaigns ↔ id ∈ p.campaigns)))
        s.products s'.products
      ∧ (Evt.removedCacheProductsList ∈ evts ↔
          (∃ x ∈ cOld.productsIds, x ∉ newIds) ∨ (∃ x ∈ newIds, x ∉ cOld.productsIds)))
    ∧ (∀ (s : RefState) (id : String) (newIds : List String) (oOld : Offer)
        (s' : RefState) (evts : List Evt),
      findOffer s id = some oOld →
      offerUpdate s id ⟨some newIds⟩ = .ok (s', evts) →
      List.Forall₂ (fun p p' : Product =>
          p'.pid = p.pid
          ∧ (p.pid ∈ oOld.applicable_products → p.pid ∉ newIds → id ∉ p'.offers)
          ∧ (p.pid ∈ newIds → p.pid ∉ oOld.applicable_products → id ∈ p'.offers)
          ∧ (p.pid ∈ newIds → p.pid ∈ oOld.applicable_products →
              (id ∈ p'.offers ↔ id ∈ p.offers)))
        s.products s'.products
      ∧ (Evt.removedCacheProductsList ∈ evts ↔
          (∃ x ∈ oOld.applicable_products, x ∉ newIds)
            ∨ (∃ x ∈ newIds, x ∉ oOld.applicable_products))) := by
  constructor
  · intro s id newIds cOld s' evts hfind hok
    by_cases hid : isValidMongoId id
    · constructor
      · have hst := campaignUpdate_state_some s id newIds cOld hid hfind
        rw [hok] at hst
        simp only [okOr] at hst
        rw [hst]
        show List.Forall₂ _ s.products
          (addCampaignToMany
            (pullCampaignFromMany s.products
              (cOld.productsIds.filter (fun x => x ∉ newIds)) id)
            (newIds.filter (fun x => x ∉ cOld.productsIds)) id)
        rw [addCampaignToMany, pullCampaignFromMany, List.map_map]
        apply forall₂_map_self
        intro p hp
        exact campUpdate_pointwise cOld.productsIds newIds id p
      · exact (campaignUpdate_evts_mem s id newIds cOld s' evts hid hfind hok).trans
          (filter_nonempty_symmdiff cOld.productsIds newIds)
    · simp [campaignUpdate, hid] at hok
  · intro s id newIds oOld s' evts hfind hok
    by_cases hid : isValidMongoId id
    · constructor
      · have hst := offerUpdate_state_some s id newIds oOld hid hfind
        rw [hok] at hst
        simp only [okOr] at hst
        rw [hst]
        show List.Forall₂ _ s.products
          (addOfferToMany
            (pullOfferFromMany s.products
              (oOld.applicable_products.filter (fun x => x ∉ newIds)) id)
            (newIds.filter (fun x => x ∉ oOld.applicable_products)) id)
        rw [addOfferToMany, pullOfferFromMany, List.map_map]
        apply forall₂_map_self
        intro p hp
        exact offUpdate_pointwise oOld.applicable_products newIds id p
      · exact (offerUpdate_evts_mem s id newIds oOld s' evts hid hfind hok).trans
          (filter_nonempty_symmdiff oOld.applicable_products newIds)
    · simp [offerUpdate, hid] at hok

/-- Concrete run of the C2 theorem: updating `applies_to.productsIds`
from `[p1, p2]` to `[p2, p3]` unlinks `p1`, keeps `p2`, links `p3`, and
invalidates the products-list cache. -/
theorem update_symmetric_difference_witness :
    List.Forall₂ (fun p p' : Product =>
        p'.pid = p.pid
        ∧ (p.pid ∈ ["111111111111111111111111", "222222222222222222222222"] →
            p.pid ∉ ["222222222222222222222222", "333333333333333333333333"] →
            "cccccccccccccccccccccccc" ∉ p'.campaigns)
        ∧ (p.pid ∈ ["222222222222222222222222", "333333333333333333333333"] →
            p.pid ∉ ["111111111111111111111111", "222222222222222222222222"] →
            "cccccccccccccccccccccccc" ∈ p'.campaigns)
        ∧ (p.pid ∈ ["222222222222222222222222", "333333333333333333333333"] →
            p.pid ∈ ["111111111111111111111111", "222222222222222222222222"] →
            ("cccccccccccccccccccccccc" ∈ p'.campaigns ↔
              "cccccccccccccccccccccccc" ∈ p.campaigns)))
      [{ pid := "111111111111111111111111", campaigns := ["cccccccccccccccccccccccc"] },
       { pid := "222222222222222222222222", campaigns := ["cccccccccccccccccccccccc"] },
       { pid := "333333333333333333333333" }]
      [{ pid := "111111111111111111111111", campaigns := [] },
       { pid := "222222222222222222222222", campaigns := ["cccccccccccccccccccccccc"] },
       { pid := "333333333333333333333333", campaigns := ["cccccccccccccccccccccccc"] }]
    ∧ (Evt.removedCacheProductsList ∈
        [Evt.updatedCampaign "cccccccccccccccccccccccc",
         Evt.pulledCampaignFromProducts ["111111111111111111111111"]
           "cccccccccccccccccccccccc",
         Evt.addedCampaignToProducts ["333333333333333333333333"]
           "cccccccccccccccccccccccc",
         Evt.removedCacheProductsList,
         Evt.removedCacheCampaignDetail "cccccccccccccccccccccccc",
         Evt.removedCacheCampaigns] ↔
        (∃ x ∈ ["111111111111111111111111", "222222222222222222222222"],
            x ∉ ["222222222222222222222222", "333333333333333333333333"])
          ∨ (∃ x ∈ ["222222222222222222222222", "333333333333333333333333"],
              x ∉ ["111111111111111111111111", "222222222222222222222222"])) :=
  update_symmetric_difference.1
    ⟨[{ pid := "111111111111111111111111", campaigns := ["cccccccccccccccccccccccc"] },
      { pid := "222222222222222222222222", campaigns := ["cccccccccccccccccccccccc"] },
      { pid := "333333333333333333333333" }],
     [⟨"cccccccccccccccccccccccc",
       ["111111111111111111111111", "222222222222222222222222"]⟩], []⟩
    "cccccccccccccccccccccccc"
    ["222222222222222222222222", "333333333333333333333333"]
    ⟨"cccccccccccccccccccccccc",
      ["111111111111111111111111", "222222222222222222222222"]⟩
    ⟨[{ pid := "111111111111111111111111", campaigns := [] },
      { pid := "222222222222222222222222", campaigns := ["cccccccccccccccccccccccc"] },
      { pid := "333333333333333333333333", campaigns := ["cccccccccccccccccccccccc"] }],
     [⟨"cccccccccccccccccccccccc",
       ["222222222222222222222222", "333333333333333333333333"]⟩], []⟩
    [Evt.updatedCampaign "cccccccccccccccccccccccc",
     Evt.pulledCampaignFromProducts ["111111111111111111111111"]
       "cccccccccccccccccccccccc",
     Evt.addedCampaignToProducts ["333333333333333333333333"]
       "cccccccccccccccccccccccc",
     Evt.removedCacheProductsList,
     Evt.removedCacheCampaignDetail "cccccccccccccccccccccccc",
     Evt.removedCacheCampaigns]
    rfl rfl

/-! ## Claim C3 — delete unlinks before removing the record -/

/-- C3.  Deleting an existing Campaign/Offer that references products
pulls its id from the referenced products strictly before deleting the
record (witnessed by the position of the effects in the operation's
sequence), and afterwards — assuming the bidirectional invariant held —
no product references the deleted id and the record is gone. -/
theorem delete_unlinks_before_record_removal :
    (∀ (s : RefState) (id : String) (cOld : Campaign) (s' : RefState) (evts : List Evt),
      findCampaign s id = some cOld →
      cOld.productsIds ≠ [] →
      campaignDelete s id = .ok (s', evts) →
      CampSide s.products s.campaigns →
      (s.campaigns.map (·.cid)).Nodup →
      (∃ i j, i < j
        ∧ evts.get? i = some (Evt.pulledCampaignFromProducts cOld.productsIds id)
        ∧ evts.get? j = some (Evt.deletedCampaign id))
      ∧ (∀ p ∈ s'.products, id ∉ p.campaigns)
      ∧ findCampaign s' id = none)
    ∧ (∀ (s : RefState) (id : String) (oOld : Offer) (s' : RefState) (evts : List Evt),
      findOffer s id = some oOld →
      oOld.applicable_products ≠ [] →
      offerDelete s id = .ok (s', evts) →
      OfferSide s.products s.offers →
      (s.offers.map (·.oid)).Nodup →
      (∃ i j, i < j
        ∧ evts.get? i = some (Evt.pulledOfferFromProducts oOld.applicable_products id)
        ∧ evts.get? j = some (Evt.deletedOffer id))
      ∧ (∀ p ∈ s'.products, id ∉ p.offers)
      ∧ findOffer s' id = none) := by
  constructor
  · intro s id cOld s' evts hfind hne hok hinv hnodup
    by_cases hid : isValidMongoId id
    · rw [campaignDelete_eq s id cOld hid hfind] at hok
      simp only [List.length_pos, ne_eq, hne, not_false_iff, if_true,
        List.cons_append, List.nil_append, Except.ok.injEq, Prod.mk.injEq] at hok
      obtain ⟨hs, he⟩ := hok
      subst he
      subst hs
      obtain ⟨h1, h2, h3⟩ := hinv
      have hcOld_mem : cOld ∈ s.campaigns := List.mem_of_find?_eq_some hfind
      have hcOld_cid : cOld.cid = id := by
        have hps := List.find?_some hfind
        simpa using hps
      refine ⟨⟨0, 2, by omega, rfl, rfl⟩, ?_, ?_⟩
      · intro p' hp' hmem
        obtain ⟨p, hp, rfl⟩ := List.mem_map.1 hp'
        rw [applyCampPull_campaigns] at hmem
        by_cases hin : p.pid ∈ cOld.productsIds
        · rw [if_pos hin] at hmem
          exact (mem_pull_iff.1 hmem).2 rfl
        · rw [if_neg hin] at hmem
          obtain ⟨c, hcm, hcc, hpc⟩ := h3 p hp id hmem
          have : c = cOld := eq_of_nodup_cid hnodup hcm hcOld_mem (hcc.trans hcOld_cid.symm)
          exact hin (this ▸ hpc)
      · apply List.find?_eq_none.2
        intro c hc
        have hcf := List.of_mem_filter hc
        simp only [decide_eq_true_eq] at hcf
        simpa using hcf
    · simp [campaignDelete, hid] at hok
  · intro s id oOld s' evts hfind hne hok hinv hnodup
    by_cases hid : isValidMongoId id
    · rw [offerDelete_eq s id oOld hid hfind] at hok
      simp only [List.length_pos, ne_eq, hne, not_false_iff, if_true,
        List.cons_append, List.nil_append, Except.ok.injEq, Prod.mk.injEq] at hok
      obtain ⟨hs, he⟩ := hok
      subst he
      subst hs
      obtain ⟨h1, h2, h3⟩ := hinv
      have hoOld_mem : oOld ∈ s.offers := List.mem_of_find?_eq_some hfind
      have hoOld_oid : oOld.oid = id := by
        have hps := List.find?_some hfind
        simpa using hps
      refine ⟨⟨0, 2, by omega, rfl, rfl⟩, ?_, ?_⟩
      · intro p' hp' hmem
        obtain ⟨p, hp, rfl⟩ := List.mem_map.1 hp'
        rw [applyOffPull_offers] at hmem
        by_cases hin : p.pid ∈ oOld.applicable_products
        · rw [if_pos hin] at hmem
          exact (mem_pull_iff.1 hmem).2 rfl
        · rw [if_neg hin] at hmem
          obtain ⟨o, hom, hoo, hpo⟩ := h3 p hp id hmem
          have : o = oOld := eq_of_nodup_oid hnodup hom hoOld_mem (hoo.trans hoOld_oid.symm)
          exact hin (this ▸ hpo)
      · apply List.find?_eq_none.2
        intro o ho
        have hof := List.of_mem_filter ho
        simp only [decide_eq_true_eq] at hof
        simpa using hof
    · simp [offerDelete, hid] at hok

/-- Concrete run of the C3 theorem: deleting a campaign referencing
`[p1, p2]` pulls the reference from both products before the record
removal, and afterwards neither product references it. -/
theorem delete_unlinks_before_record_removal_witness :
    (∃ i j, i < j
      ∧ [Evt.pulledCampaignFromProducts
           ["111111111111111111111111", "222222222222222222222222"]
           "cccccccccccccccccccccccc",
         Evt.removedCacheProductsList,
         Evt.deletedCampaign "cccccccccccccccccccccccc",
         Evt.removedCacheCampaignDetail "cccccccccccccccccccccccc",
         Evt.removedCacheCampaigns].get? i =
          some (Evt.pulledCampaignFromProducts
            ["111111111111111111111111", "222222222222222222222222"]
            "cccccccccccccccccccccccc")
      ∧ [Evt.pulledCampaignFromProducts
           ["111111111111111111111111", "222222222222222222222222"]
           "cccccccccccccccccccccccc",
         Evt.removedCacheProductsList,
         Evt.deletedCampaign "cccccccccccccccccccccccc",
         Evt.removedCacheCampaignDetail "cccccccccccccccccccccccc",
         Evt.removedCacheCampaigns].get? j =
          some (Evt.deletedCampaign "cccccccccccccccccccccccc"))
    ∧ (∀ p ∈ (⟨[{ pid := "111111111111111111111111", campaigns := [] },
                { pid := "222222222222222222222222", campaigns := [] }],
               [], []⟩ : RefState).products,
        "cccccccccccccccccccccccc" ∉ p.campaigns)
    ∧ findCampaign
        ⟨[{ pid := "111111111111111111111111", campaigns := [] },
          { pid := "222222222222222222222222", campaigns := [] }], [], []⟩
        "cccccccccccccccccccccccc" = none :=
  delete_unlinks_before_record_removal.1
    ⟨[{ pid := "111111111111111111111111", campaigns := ["cccccccccccccccccccccccc"] },
      { pid := "222222222222222222222222", campaigns := ["cccccccccccccccccccccccc"] }],
     [⟨"cccccccccccccccccccccccc",
       ["111111111111111111111111", "222222222222222222222222"]⟩], []⟩
    "cccccccccccccccccccccccc"
    ⟨"cccccccccccccccccccccccc",
      ["111111111111111111111111", "222222222222222222222222"]⟩
    ⟨[{ pid := "111111111111111111111111", campaigns := [] },
      { pid := "222222222222222222222222", campaigns := [] }], [], []⟩
    [Evt.pulledCampaignFromProducts
       ["111111111111111111111111", "222222222222222222222222"]
       "cccccccccccccccccccccccc",
     Evt.removedCacheProductsList,
     Evt.deletedCampaign "cccccccccccccccccccccccc",
     Evt.removedCacheCampaignDetail "cccccccccccccccccccccccc",
     Evt.removedCacheCampaigns]
    rfl (by decide) rfl (by decide) (by decide)

/-! ## Claims C5 and C10 — cart item semantics -/

theorem countOf_pos_of_any {l : List CartItem} {pid : String}
    (h : l.any (fun it => it.product == pid) = true) : 0 < countOf l pid := by
  obtain ⟨it, hmem, hit⟩ := List.any_eq_true.1 h
  have : it ∈ l.filter (fun it => it.product == pid) := List.mem_filter.2 ⟨hmem, hit⟩
  exact List.length_pos.2 (List.ne_nil_of_mem this)

theorem countOf_eq_zero_of_not_any {l : List CartItem} {pid : String}
    (h : l.any (fun it => it.product == pid) = false) : countOf l pid = 0 := by
  unfold countOf
  rw [List.filter_eq_nil_iff.2]
  · rfl
  · intro it hmem hit
    rw [List.any_eq_false] at h
    exact h it hmem hit

theorem qtyOf_bump (l : List CartItem) (pid : String) (q : Nat)
    (h : l.any (fun it => it.product == pid) = true) :
    qtyOf (bumpQuantityFirst l pid q) pid = qtyOf l pid + q := by
  induction l with
  | nil => simp at h
  | cons it rest ih =>
    unfold bumpQuantityFirst
    by_cases hit : (it.product == pid) = true
    · rw [if_pos hit]
      simp only [qtyOf, List.filter_cons, hit]
      simp only [if_true]
      simp only [List.map_cons, List.sum_cons]
      omega
    · rw [if_neg hit]
      have hrest : rest.any (fun it => it.product == pid) = true := by
        rcases List.any_eq_true.1 h with ⟨x, hx, hxp⟩
        rcases List.mem_cons.1 hx with rfl | hx2
        · exact absurd hxp hit
        · exact List.any_eq_true.2 ⟨x, hx2, hxp⟩
      simp only [qtyOf, List.filter_cons, hit] at ih ⊢
      exact ih hrest

theorem countOf_bump (l : List CartItem) (pid : String) (q : Nat) :
    countOf (bumpQuantityFirst l pid q) pid = countOf l pid := by
  induction l with
  | nil => rfl
  | cons it rest ih =>
    unfold bumpQuantityFirst
    by_cases hit : (it.product == pid) = true
    · rw [if_pos hit]
      simp only [countOf, List.filter_cons, hit, if_true, List.length_cons]
    · rw [if_neg hit]
      simp only [countOf, List.filter_cons] at ih ⊢
      rw [if_neg (by simpa using hit), if_neg (by simpa using hit)]
      exact ih

theorem filter_bump_ne (l : List CartItem) (pid : String) (q : Nat) (p' : String)
    (h : p' ≠ pid) :
    (bumpQuantityFirst l pid q).filter (fun it => it.product == p') =
      l.filter (fun it => it.product == p') := by
  induction l with
  | nil => rfl
  | cons it rest ih =>
    unfold bumpQuantityFirst
    by_cases hit : (it.product == pid) = true
    · rw [if_pos hit]
      have hip : it.product = pid := by simpa using hit
      have hne : (it.product == p') = false := by
        simp [hip]
        exact fun he => h he.symm
      simp only [List.filter_cons]
      rw [if_neg (by simp [hne]), if_neg (by simp [hne])]
    · rw [if_neg hit]
      simp only [List.filter_cons]
      by_cases hip' : (it.product == p') = true
      · rw [if_pos (by simpa using hip'), if_pos (by simpa using hip'), ih]
      · rw [if_neg (by simpa using hip'), if_neg (by simpa using hip'), ih]

/-- C5.  `addItem` accumulates quantity into the single existing item for
the product (or appends a fresh one), never creating a second item, and
leaves every other product's items untouched; in particular two
successive `addItem`s for the same product sum their quantities. -/
theorem addItem_increments_or_appends (carts : List Cart) (userId productId : String)
    (q : Nat) (fid : String) (carts' : List Cart) (cart : Cart) (pats : List String)
    (hcount : countOf (userItems carts userId) productId ≤ 1)
    (hok : cartAddItem carts userId productId q fid = .ok (carts', cart, pats)) :
    qtyOf cart.items productId = qtyOf (userItems carts userId) productId + q
    ∧ countOf cart.items productId = 1
    ∧ (∀ p', p' ≠ productId →
        cart.items.filter (fun it => it.product == p') =
          (userItems carts userId).filter (fun it => it.product == p')) := by
  by_cases hu : isValidMongoId userId
  case neg => simp [cartAddItem, hu] at hok
  by_cases hp : isValidMongoId productId
  case neg => simp [cartAddItem, hu, hp] at hok
  cases hfind : carts.find? (fun c => c.user == userId) with
  | none =>
    simp only [cartAddItem, hu, hp, hfind, not_true, if_false, Except.ok.injEq,
      Prod.mk.injEq] at hok
    obtain ⟨-, hcart, -⟩ := hok
    subst hcart
    have hui : userItems carts userId = [] := by simp [userItems, hfind]
    rw [hui]
    refine ⟨by simp [qtyOf], by simp [countOf], ?_⟩
    intro p' hp'
    simp [List.filter_cons, show (productId == p') = false by
      simpa using fun he => hp' he.symm]
  | some cart0 =>
    have hui : userItems carts userId = cart0.items := by simp [userItems, hfind]
    by_cases hany : cart0.items.any (fun it => it.product == productId) = true
    · simp only [cartAddItem, hu, hp, hfind, hany, not_true, if_false, if_true,
        Except.ok.injEq, Prod.mk.injEq] at hok
      obtain ⟨-, hcart, -⟩ := hok
      subst hcart
      rw [hui] at hcount ⊢
      refine ⟨qtyOf_bump cart0.items productId q hany, ?_, ?_⟩
      · have h1 := countOf_bump cart0.items productId q
        have h2 := countOf_pos_of_any hany
        simp only [h1]
        omega
      · intro p' hp'
        exact filter_bump_ne cart0.items productId q p' hp'
    · simp only [cartAddItem, hu, hp, hfind, hany, not_true, if_false,
        Bool.false_eq_true, Except.ok.injEq, Prod.mk.injEq] at hok
      obtain ⟨-, hcart, -⟩ := hok
      subst hcart
      rw [hui]
      have hz : countOf cart0.items productId = 0 :=
        countOf_eq_zero_of_not_any (by simpa using hany)
      have hfil : cart0.items.filter (fun it => it.product == productId) = [] := by
        have := hz
        unfold countOf at this
        exact List.length_eq_zero.1 this
      refine ⟨?_, ?_, ?_⟩
      · simp only [qtyOf, List.filter_append, hfil, List.nil_append]
        simp [qtyOf, hfil]
      · simp only [countOf, List.filter_append, hfil, List.nil_append]
        simp
      · intro p' hp'
        simp only [List.filter_append]
        have : (productId == p') = false := by simpa using fun he => hp' he.symm
        simp [this]

theorem setQ_find (l : List CartItem) (iid : String) (q : Nat)
    (h : l.any (fun i => i.itemId == iid) = true) :
    ((setQuantityFirst l iid q).find? (fun it => it.itemId == iid)).map (·.quantity)
      = some q := by
  induction l with
  | nil => simp at h
  | cons it rest ih =>
    unfold setQuantityFirst
    by_cases hit : (it.itemId == iid) = true
    · rw [if_pos hit]
      rw [List.find?_cons_of_pos _ (by simpa using hit)]
      rfl
    · rw [if_neg hit]
      rw [List.find?_cons_of_neg _ (by simpa using hit)]
      have hrest : rest.any (fun i => i.itemId == iid) = true := by
        rcases List.any_eq_true.1 h with ⟨x, hx, hxp⟩
        rcases List.mem_cons.1 hx with rfl | hx2
        · exact absurd hxp hit
        · exact List.any_eq_true.2 ⟨x, hx2, hxp⟩
      exact ih hrest

theorem setQ_length (l : List CartItem) (iid : String) (q : Nat) :
    (setQuantityFirst l iid q).length = l.length := by
  induction l with
  | nil => rfl
  | cons it rest ih =>
    unfold setQuantityFirst
    by_cases hit : (it.itemId == iid) = true
    · rw [if_pos hit]; rfl
    · rw [if_neg hit]
      simp [ih]

theorem setQ_filter_ne (l : List CartItem) (iid : String) (q : Nat) (i' : String)
    (h : i' ≠ iid) :
    (setQuantityFirst l iid q).filter (fun it => it.itemId == i') =
      l.filter (fun it => it.itemId == i') := by
  induction l with
  | nil => rfl
  | cons it rest ih =>
    unfold setQuantityFirst
    by_cases hit : (it.itemId == iid) = true
    · rw [if_pos hit]
      have hii : it.itemId = iid := by simpa using hit
      have hne : (it.itemId == i') = false := by
        simp [hii]
        exact fun he => h he.symm
      simp only [List.filter_cons]
      rw [if_neg (by simp [hne]), if_neg (by simp [hne])]
    · rw [if_neg hit]
      simp only [List.filter_cons]
      by_cases hii' : (it.itemId == i') = true
      · rw [if_pos (by simpa using hii'), if_pos (by simpa using hii'), ih]
      · rw [if_neg (by simpa using hii'), if_neg (by simpa using hii'), ih]

/-- C10.  `updateItem` sets the addressed item's quantity to exactly the
given value (replacement, unlike `addItem`'s increment) and leaves every
other item unchanged. -/
theorem updateItem_sets_quantity (carts : List Cart) (userId itemId : String)
    (q : Nat) (carts' : List Cart) (cart : Cart) (pats : List String)
    (hok : cartUpdateItem carts userId itemId q = .ok (carts', cart, pats)) :
    ((cart.items.find? (fun it => it.itemId == itemId)).map (·.quantity)) = some q
    ∧ cart.items.length = (userItems carts userId).length
    ∧ (∀ it ∈ userItems carts userId, it.itemId ≠ itemId → it ∈ cart.items)
    ∧ (∀ it ∈ cart.items, it.itemId ≠ itemId → it ∈ userItems carts userId) := by
  by_cases hu : isValidMongoId userId
  case neg => simp [cartUpdateItem, hu] at hok
  by_cases hi : isValidMongoId itemId
  case neg => simp [cartUpdateItem, hu, hi] at hok
  cases hfind : carts.find? (fun c => c.user == userId) with
  | none => simp [cartUpdateItem, hu, hi, hfind] at hok
  | some cart0 =>
    have hui : userItems carts userId = cart0.items := by simp [userItems, hfind]
    by_cases hany : cart0.items.any (fun i => i.itemId == itemId) = true
    · simp only [cartUpdateItem, hu, hi, hfind, hany, not_true, if_false, if_true,
        Except.ok.injEq, Prod.mk.injEq] at hok
      obtain ⟨-, hcart, -⟩ := hok
      subst hcart
      rw [hui]
      refine ⟨setQ_find cart0.items itemId q hany, setQ_length cart0.items itemId q, ?_, ?_⟩
      · intro it hmem hne
        have hf : it ∈ cart0.items.filter (fun i => i.itemId == it.itemId) :=
          List.mem_filter.2 ⟨hmem, by simp⟩
        rw [← setQ_filter_ne cart0.items itemId q it.itemId hne] at hf
        exact List.mem_of_mem_filter hf
      · intro it hmem hne
        have hf : it ∈ (setQuantityFirst cart0.items itemId q).filter
            (fun i => i.itemId == it.itemId) :=
          List.mem_filter.2 ⟨hmem, by simp⟩
        rw [setQ_filter_ne cart0.items itemId q it.itemId hne] at hf
        exact List.mem_of_mem_filter hf
    · simp [cartUpdateItem, hu, hi, hfind, hany] at hok

/-- Concrete run of the C5 theorem: after `addItem(u1, p1, 2)`, a second
`addItem(u1, p1, 3)` yields one item for `p1` with quantity 5. -/
theorem addItem_increments_or_appends_witness :
    countOf
      (userItems [⟨"aaaaaaaaaaaaaaaaaaaaaaaa",
        [⟨"dddddddddddddddddddddddd", "bbbbbbbbbbbbbbbbbbbbbbbb", 2⟩]⟩]
        "aaaaaaaaaaaaaaaaaaaaaaaa") "bbbbbbbbbbbbbbbbbbbbbbbb" ≤ 1
    ∧ qtyOf ((⟨"aaaaaaaaaaaaaaaaaaaaaaaa",
        [⟨"dddddddddddddddddddddddd", "bbbbbbbbbbbbbbbbbbbbbbbb", 5⟩]⟩ : Cart)).items
        "bbbbbbbbbbbbbbbbbbbbbbbb" =
      qtyOf (userItems [⟨"aaaaaaaaaaaaaaaaaaaaaaaa",
        [⟨"dddddddddddddddddddddddd", "bbbbbbbbbbbbbbbbbbbbbbbb", 2⟩]⟩]
        "aaaaaaaaaaaaaaaaaaaaaaaa") "bbbbbbbbbbbbbbbbbbbbbbbb" + 3
    ∧ countOf ((⟨"aaaaaaaaaaaaaaaaaaaaaaaa",
        [⟨"dddddddddddddddddddddddd", "bbbbbbbbbbbbbbbbbbbbbbbb", 5⟩]⟩ : Cart)).items
        "bbbbbbbbbbbbbbbbbbbbbbbb" = 1
    ∧ qtyOf ((⟨"aaaaaaaaaaaaaaaaaaaaaaaa",
        [⟨"dddddddddddddddddddddddd", "bbbbbbbbbbbbbbbbbbbbbbbb", 5⟩]⟩ : Cart)).items
        "bbbbbbbbbbbbbbbbbbbbbbbb" = 5 :=
  have h := addItem_increments_or_appends
    [⟨"aaaaaaaaaaaaaaaaaaaaaaaa",
      [⟨"dddddddddddddddddddddddd", "bbbbbbbbbbbbbbbbbbbbbbbb", 2⟩]⟩]
    "aaaaaaaaaaaaaaaaaaaaaaaa" "bbbbbbbbbbbbbbbbbbbbbbbb" 3
    "eeeeeeeeeeeeeeeeeeeeeeee"
    [⟨"aaaaaaaaaaaaaaaaaaaaaaaa",
      [⟨"dddddddddddddddddddddddd", "bbbbbbbbbbbbbbbbbbbbbbbb", 5⟩]⟩]
    ⟨"aaaaaaaaaaaaaaaaaaaaaaaa",
      [⟨"dddddddddddddddddddddddd", "bbbbbbbbbbbbbbbbbbbbbbbb", 5⟩]⟩
    ["cart:aaaaaaaaaaaaaaaaaaaaaaaa:*", "cart:all:*"]
    (by decide) rfl
  ⟨by decide, h.1, h.2.1, h.1.trans (by decide)⟩

/-- Concrete run of the C10 theorem: `updateItem` replaces the quantity
(2 becomes 9, not 11) and keeps the other item. -/
theorem updateItem_sets_quantity_witness :
    (((⟨"aaaaaaaaaaaaaaaaaaaaaaaa",
        [⟨"dddddddddddddddddddddddd", "bbbbbbbbbbbbbbbbbbbbbbbb", 9⟩,
         ⟨"eeeeeeeeeeeeeeeeeeeeeeee", "ffffffffffffffffffffffff", 7⟩]⟩ : Cart)).items.find?
        (fun it => it.itemId == "dddddddddddddddddddddddd")).map (·.quantity) = some 9
    ∧ ((⟨"aaaaaaaaaaaaaaaaaaaaaaaa",
        [⟨"dddddddddddddddddddddddd", "bbbbbbbbbbbbbbbbbbbbbbbb", 9⟩,
         ⟨"eeeeeeeeeeeeeeeeeeeeeeee", "ffffffffffffffffffffffff", 7⟩]⟩ : Cart)).items.length =
      (userItems [⟨"aaaaaaaaaaaaaaaaaaaaaaaa",
        [⟨"dddddddddddddddddddddddd", "bbbbbbbbbbbbbbbbbbbbbbbb", 2⟩,
         ⟨"eeeeeeeeeeeeeeeeeeeeeeee", "ffffffffffffffffffffffff", 7⟩]⟩]
        "aaaaaaaaaaaaaaaaaaaaaaaa").length :=
  have h := updateItem_sets_quantity
    [⟨"aaaaaaaaaaaaaaaaaaaaaaaa",
      [⟨"dddddddddddddddddddddddd", "bbbbbbbbbbbbbbbbbbbbbbbb", 2⟩,
       ⟨"eeeeeeeeeeeeeeeeeeeeeeee", "ffffffffffffffffffffffff", 7⟩]⟩]
    "aaaaaaaaaaaaaaaaaaaaaaaa" "dddddddddddddddddddddddd" 9
    [⟨"aaaaaaaaaaaaaaaaaaaaaaaa",
      [⟨"dddddddddddddddddddddddd", "bbbbbbbbbbbbbbbbbbbbbbbb", 9⟩,
       ⟨"eeeeeeeeeeeeeeeeeeeeeeee", "ffffffffffffffffffffffff", 7⟩]⟩]
    ⟨"aaaaaaaaaaaaaaaaaaaaaaaa",
      [⟨"dddddddddddddddddddddddd", "bbbbbbbbbbbbbbbbbbbbbbbb", 9⟩,
       ⟨"eeeeeeeeeeeeeeeeeeeeeeee", "ffffffffffffffffffffffff", 7⟩]⟩
    ["cart:aaaaaaaaaaaaaaaaaaaaaaaa:*", "cart:all:*"]
    rfl
  ⟨h.1, h.2.1⟩

/-! ## Claim C9 — pagination invariant -/

theorem le_ceil_mul (t L : Nat) (h : 0 < L) : t ≤ (t + L - 1) / L * L := by
  have h1 := Nat.lt_mul_div_succ (t + L - 1) h
  rw [Nat.mul_succ] at h1
  rw [Nat.mul_comm]
  generalize L * ((t + L - 1) / L) = m at h1 ⊢
  omega

theorem ceil_mul_lt (t L : Nat) (h : 0 < L) : (t + L - 1) / L * L < t + L := by
  have h2 : (t + L - 1) / L * L ≤ t + L - 1 := Nat.div_mul_le_self _ _
  omega

theorem length_insertSorted (le : Product → Product → Bool) (p : Product)
    (l : List Product) : (insertSorted le p l).length = l.length + 1 := by
  induction l with
  | nil => rfl
  | cons q rest ih =>
    unfold insertSorted
    split
    · simp
    · simp [ih]

theorem length_sortProducts (le : Product → Product → Bool) (l : List Product) :
    (sortProducts le l).length = l.length := by
  induction l with
  | nil => rfl
  | cons p rest ih =>
    show (insertSorted le p (sortProducts le rest)).length = rest.length + 1
    rw [length_insertSorted, ih]

/-- C9.  Every list call reports `items` equal to the number of matching
records and `totalPages = ceil(items / limit)` (characterised by
`items ≤ totalPages*limit < items + limit`), and a page beyond
`totalPages` returns an empty item list while `items` is still the full
count. -/
theorem pagination_invariant :
    (∀ (store : List Product) (query : GetProductsQuery), 0 < query.limit →
      (productList store query).2.items =
          (store.filter (productMatchesFilter query)).length
      ∧ (productList store query).2.items ≤
          (productList store query).2.totalPages * query.limit
      ∧ (productList store query).2.totalPages * query.limit <
          (productList store query).2.items + query.limit
      ∧ ((productList store query).2.totalPages < query.page →
          (productList store query).1 = []))
    ∧ (∀ (carts : List Cart) (page limit : Nat), 0 < limit →
      (cartGetAllCarts carts page limit).2.items = carts.length
      ∧ (cartGetAllCarts carts page limit).2.items ≤
          (cartGetAllCarts carts page limit).2.totalPages * limit
      ∧ (cartGetAllCarts carts page limit).2.totalPages * limit <
          (cartGetAllCarts carts page limit).2.items + limit
      ∧ ((cartGetAllCarts carts page limit).2.totalPages < page →
          (cartGetAllCarts carts page limit).1 = [])) := by
  constructor
  · intro store query hL
    refine ⟨rfl, le_ceil_mul _ _ hL, ceil_mul_lt _ _ hL, ?_⟩
    intro hpage
    show (((sortProducts (productLE query)
        (store.filter (productMatchesFilter query))).drop
          ((query.page - 1) * query.limit)).take query.limit) = []
    have hlen : (sortProducts (productLE query)
        (store.filter (productMatchesFilter query))).length =
          (store.filter (productMatchesFilter query)).length :=
      length_sortProducts _ _
    have htp : (store.filter (productMatchesFilter query)).length
        ≤ (query.page - 1) * query.limit := by
      have h1 := le_ceil_mul (store.filter (productMatchesFilter query)).length
        query.limit hL
      have h2 : ((store.filter (productMatchesFilter query)).length + query.limit - 1)
          / query.limit ≤ query.page - 1 := by
        have := hpage
        simp only [productList] at this
        omega
      calc (store.filter (productMatchesFilter query)).length
          ≤ ((store.filter (productMatchesFilter query)).length + query.limit - 1)
              / query.limit * query.limit := h1
        _ ≤ (query.page - 1) * query.limit := Nat.mul_le_mul_right _ h2
    rw [List.drop_eq_nil_of_le (hlen ▸ htp), List.take_nil]
  · intro carts page limit hL
    refine ⟨rfl, le_ceil_mul _ _ hL, ceil_mul_lt _ _ hL, ?_⟩
    intro hpage
    show ((carts.drop ((page - 1) * limit)).take limit) = []
    have htp : carts.length ≤ (page - 1) * limit := by
      have h1 := le_ceil_mul carts.length limit hL
      have h2 : (carts.length + limit - 1) / limit ≤ page - 1 := by
        have := hpage
        simp only [cartGetAllCarts] at this
        omega
      calc carts.length
          ≤ (carts.length + limit - 1) / limit * limit := h1
        _ ≤ (page - 1) * limit := Nat.mul_le_mul_right _ h2
    rw [List.drop_eq_nil_of_le htp, List.take_nil]

/-- Concrete run of the C9 theorem: three matching products, limit 2,
page 3 is beyond `totalPages = 2`: the data list is empty while `items`
still reports 3. -/
theorem pagination_invariant_witness :
    0 < (⟨none, none, none, none, none, 3, 2, "name", "asc"⟩ : GetProductsQuery).limit
    ∧ (productList
        [{ pid := "111111111111111111111111", name := "a" },
         { pid := "222222222222222222222222", name := "b" },
         { pid := "333333333333333333333333", name := "c" }]
        ⟨none, none, none, none, none, 3, 2, "name", "asc"⟩).2.items = 3
    ∧ (productList
        [{ pid := "111111111111111111111111", name := "a" },
         { pid := "222222222222222222222222", name := "b" },
         { pid := "333333333333333333333333", name := "c" }]
        ⟨none, none, none, none, none, 3, 2, "name", "asc"⟩).1 = [] :=
  have h := pagination_invariant.1
    [{ pid := "111111111111111111111111", name := "a" },
     { pid := "222222222222222222222222", name := "b" },
     { pid := "333333333333333333333333", name := "c" }]
    ⟨none, none, none, none, none, 3, 2, "name", "asc"⟩ (by decide)
  ⟨by decide, h.1.trans (by decide), h.2.2.2 (by decide)⟩

/-! ## Claim C6 — duplicate unique fields on create -/

/-- C6 as frozen is false: `ProductService.create` rejects a duplicate
product name with a plain `Error` (modelled `internal`), not an
`http-errors` `Conflict`. -/
theorem product_create_duplicate_not_conflict :
    (productCreate
        ⟨[{ pid := "111111111111111111111111", name := "Gadget", slug := "gadget" }], []⟩
        "222222222222222222222222"
        { name := some "Gadget", slug := some "gadget-two" }).2 =
      .error ⟨.internal, "Product with this name already exists"⟩
    ∧ ErrKind.internal ≠ ErrKind.conflict := by
  exact ⟨by decide, by decide⟩

/-- C6, amended.  Creating an entity over a duplicate unique field is
rejected before any write — with `Conflict` in `BrandService`, but with a
plain `Error` (`internal`) in `ProductService.create` / `addVariant` —
and the store is returned unchanged. -/
theorem create_duplicate_unique_field :
    (∀ (s : BState) (freshId : String) (data : CreateBrandBody),
      (∃ b ∈ s.store, b.name = data.name) →
      brandCreate s freshId data = (s, .error ⟨.conflict, "Brand name already exists"⟩))
    ∧ (∀ (s : BState) (freshId : String) (data : CreateBrandBody) (sl : String),
      data.slug = some sl →
      (∀ b ∈ s.store, b.name ≠ data.name) →
      (∃ b ∈ s.store, b.slug = sl) →
      brandCreate s freshId data = (s, .error ⟨.conflict, "Brand slug already exists"⟩))
    ∧ (∀ (s : PState) (freshId : String) (data : CreateProductBody) (sl : String),
      data.slug = some sl →
      (∃ q ∈ s.store, q.slug = sl) →
      productCreate s freshId data =
        (s, .error ⟨.internal, "Product with this slug already exists"⟩))
    ∧ (∀ (s : PState) (freshId : String) (data : CreateProductBody) (sl n : String),
      data.slug = some sl → data.name = some n →
      (∀ q ∈ s.store, q.slug ≠ sl) →
      (∃ q ∈ s.store, q.name = n) →
      productCreate s freshId data =
        (s, .error ⟨.internal, "Product with this name already exists"⟩))
    ∧ (∀ (s : PState) (id : String) (variant : Variant),
      (∃ q ∈ s.store, ∃ v ∈ q.variants, v.sku = variant.sku) →
      isValidMongoId id = true →
      productAddVariant s id variant =
        (s, .error ⟨.internal, "Variant with this SKU already exists"⟩)) := by
  refine ⟨?_, ?_, ?_, ?_, ?_⟩
  · rintro s freshId data ⟨b, hb, he⟩
    have hany : s.store.any (fun b => b.name == data.name) = true :=
      List.any_eq_true.2 ⟨b, hb, by simp [he]⟩
    simp [brandCreate, hany]
  · rintro s freshId data sl hsl hnn ⟨b, hb, he⟩
    have hname : s.store.any (fun b => b.name == data.name) = false :=
      List.any_eq_false.2 fun b hb => by simpa using hnn b hb
    have hslug : s.store.any (fun b => b.slug == sl) = true :=
      List.any_eq_true.2 ⟨b, hb, by simp [he]⟩
    simp [brandCreate, hname, hsl, hslug]
  · rintro s freshId data sl hsl ⟨q, hq, he⟩
    have hslug : s.store.any (fun q => q.slug == sl) = true :=
      List.any_eq_true.2 ⟨q, hq, by simp [he]⟩
    simp [productCreate, hsl, hslug]
  · rintro s freshId data sl n hsl hn hns ⟨q, hq, he⟩
    have hslug : s.store.any (fun q => q.slug == sl) = false :=
      List.any_eq_false.2 fun q hq => by simpa using hns q hq
    have hname : s.store.any (fun q => q.name == n) = true :=
      List.any_eq_true.2 ⟨q, hq, by simp [he]⟩
    simp [productCreate, hsl, hn, hslug, hname]
  · rintro s id variant ⟨q, hq, v, hv, he⟩ hid
    have hsku : s.store.any (fun q => q.variants.any (fun v => v.sku == variant.sku)) = true :=
      List.any_eq_true.2 ⟨q, hq, List.any_eq_true.2 ⟨v, hv, by simp [he]⟩⟩
    simp [productAddVariant, hid, hsku]

/-- Concrete run of the amended C6 theorem: a duplicate brand name is a
`Conflict` and the store is unchanged. -/
theorem create_duplicate_unique_field_witness :
    (∃ b ∈ ([⟨"111111111111111111111111", "Acme", "acme"⟩] : List Brand),
      b.name = "Acme")
    ∧ brandCreate ⟨[⟨"111111111111111111111111", "Acme", "acme"⟩], []⟩
        "222222222222222222222222" ⟨"Acme", none⟩ =
      (⟨[⟨"111111111111111111111111", "Acme", "acme"⟩], []⟩,
       .error ⟨.conflict, "Brand name already exists"⟩) :=
  ⟨by decide,
   create_duplicate_unique_field.1
     ⟨[⟨"111111111111111111111111", "Acme", "acme"⟩], []⟩
     "222222222222222222222222" ⟨"Acme", none⟩ (by decide)⟩

/-! ## Claim C7 — getById error taxonomy -/

/-- C7 as frozen is false: a malformed id makes `BrandService.getById`
raise `BadRequest`, not `NotFound`. -/
theorem getById_invalid_id_badRequest :
    (brandGetById ⟨[], []⟩ "xyz" none).2 =
      .error ⟨.badRequest, "Invalid brand id"⟩
    ∧ ErrKind.badRequest ≠ ErrKind.notFound := by
  exact ⟨by decide, by decide⟩

/-- C7, amended.  `getById` fails with `BadRequest` (Brand, Campaign) or
a plain invalid-ID `Error` (Product) when the id is malformed, with
`NotFound` (Brand, Campaign) or a plain not-found `Error` (Product) when
no record exists, and returns the stored entity on a cache miss when it
exists. -/
theorem getById_error_kinds :
    (∀ (s : BState) (id : String) (fields : Option String),
      (isValidMongoId id = false →
        brandGetById s id fields = (s, .error ⟨.badRequest, "Invalid brand id"⟩))
      ∧ (isValidMongoId id = true →
          s.cache.find? (fun e => e.1 == brandCacheKey id fields) = none →
          s.store.find? (fun b => b.bid == id) = none →
          brandGetById s id fields = (s, .error ⟨.notFound, "Brand not found"⟩))
      ∧ (∀ b, isValidMongoId id = true →
          s.cache.find? (fun e => e.1 == brandCacheKey id fields) = none →
          s.store.find? (fun b => b.bid == id) = some b →
          brandGetById s id fields =
            ({ s with cache := s.cache ++ [(brandCacheKey id fields, b)] }, .ok b)))
    ∧ (∀ (campaigns : List Campaign) (cache : List (String × Campaign))
        (id : String) (fields includeProducts : Option String),
      (isValidMongoId id = false →
        campaignGetById campaigns cache id fields includeProducts =
          .error ⟨.badRequest, "Invalid campaign ID"⟩)
      ∧ (isValidMongoId id = true →
          cache.find? (fun e => e.1 == generateCacheKey ("campaigns:" ++ id)
            [("fields", fields), ("includeProducts", includeProducts)]) = none →
          campaigns.find? (fun c => c.cid == id) = none →
          campaignGetById campaigns cache id fields includeProducts =
            .error ⟨.notFound, "Campaign not found"⟩)
      ∧ (∀ c, isValidMongoId id = true →
          cache.find? (fun e => e.1 == generateCacheKey ("campaigns:" ++ id)
            [("fields", fields), ("includeProducts", includeProducts)]) = none →
          campaigns.find? (fun c => c.cid == id) = some c →
          campaignGetById campaigns cache id fields includeProducts =
            .ok (c, cache ++ [(generateCacheKey ("campaigns:" ++ id)
              [("fields", fields), ("includeProducts", includeProducts)], c)])))
    ∧ (∀ (s : PState) (id : String) (fields ic io : Option String),
      (isValidMongoId id = false →
        productGetById s id fields ic io = (s, .error ⟨.internal, "Invalid product ID"⟩))
      ∧ (isValidMongoId id = true →
          s.cache.find? (fun e => e.1 == productCacheKey id fields ic io) = none →
          s.store.find? (fun p => p.pid == id) = none →
          productGetById s id fields ic io =
            (s, .error ⟨.internal, "Product not found"⟩))
      ∧ (∀ p, isValidMongoId id = true →
          s.cache.find? (fun e => e.1 == productCacheKey id fields ic io) = none →
          s.store.find? (fun p => p.pid == id) = some p →
          productGetById s id fields ic io =
            ({ s with cache := s.cache ++ [(productCacheKey id fields ic io, p)] },
             .ok p))) := by
  refine ⟨?_, ?_, ?_⟩
  · intro s id fields
    refine ⟨fun hid => by simp [brandGetById, hid], ?_, ?_⟩
    · intro hid hcache hstore
      simp [brandGetById, hid, hcache, hstore]
    · intro b hid hcache hstore
      simp [brandGetById, hid, hcache, hstore]
  · intro campaigns cache id fields includeProducts
    refine ⟨fun hid => by simp [campaignGetById, hid], ?_, ?_⟩
    · intro hid hcache hstore
      simp [campaignGetById, hid, hcache, hstore]
    · intro c hid hcache hstore
      simp [campaignGetById, hid, hcache, hstore]
  · intro s id fields ic io
    refine ⟨fun hid => by simp [productGetById, hid], ?_, ?_⟩
    · intro hid hcache hstore
      simp [productGetById, hid, hcache, hstore]
    · intro p hid hcache hstore
      simp [productGetById, hid, hcache, hstore]

/-- Concrete run of the amended C7 theorem: a valid id with no record
gives `NotFound` for brands. -/
theorem getById_error_kinds_witness :
    isValidMongoId "aaaaaaaaaaaaaaaaaaaaaaaa" = true
    ∧ brandGetById ⟨[], []⟩ "aaaaaaaaaaaaaaaaaaaaaaaa" none =
      (⟨[], []⟩, .error ⟨.notFound, "Brand not found"⟩) :=
  ⟨by decide,
   (getById_error_kinds.1 ⟨[], []⟩ "aaaaaaaaaaaaaaaaaaaaaaaa" none).2.1
     (by decide) rfl rfl⟩

/-! ## Claim C4 — cache invalidation after mutation -/

/-- C4 fails on `ProductService`: `getById` caches the detail under the
key derived from resource `'product'` with the id inside the query
object, but `update` only deletes `products:list:*` and the key
`product:id` — which matches no stored detail entry.  The stale
pre-update document therefore survives the mutation and a subsequent
`getById` is served the old value ("Old Name") even though the store now
holds "New Name". -/
theorem product_detail_cache_stale_after_update :
    (productGetById
        ⟨[{ pid := "cccccccccccccccccccccccc", name := "Old Name", slug := "old-name" }], []⟩
        "cccccccccccccccccccccccc" none none none).2 =
      .ok { pid := "cccccccccccccccccccccccc", name := "Old Name", slug := "old-name" }
    ∧ ((productUpdate
          (productGetById
            ⟨[{ pid := "cccccccccccccccccccccccc", name := "Old Name", slug := "old-name" }], []⟩
            "cccccccccccccccccccccccc" none none none).1
          "cccccccccccccccccccccccc" { name := some "New Name" }).1.store.map (·.name)) =
      ["New Name"]
    ∧ (productGetById
        (productUpdate
          (productGetById
            ⟨[{ pid := "cccccccccccccccccccccccc", name := "Old Name", slug := "old-name" }], []⟩
            "cccccccccccccccccccccccc" none none none).1
          "cccccccccccccccccccccccc" { name := some "New Name" }).1
        "cccccccccccccccccccccccc" none none none).2 =
      .ok { pid := "cccccccccccccccccccccccc", name := "Old Name", slug := "old-name" } := by
  exact ⟨by decide, by decide, by decide⟩

/-! ## Claim C8 — slug derivation

`generateSlug` keeps `_` (JS `\w` includes the underscore), so the
"only lowercase alphanumerics and single interior hyphens" reading of
the spec fails; the remaining shape properties hold. -/

theorem jsToLower_not_upper (c : Char) : jsToLower c ∉ asciiUppers := by
  unfold jsToLower
  rcases hf : (asciiUppers.zip asciiLowers).find? (fun p => p.1 == c) with _ | p
  · rw [hf]
    show c ∉ asciiUppers
    intro hc
    have hs : ∀ u ∈ asciiUppers,
        ((asciiUppers.zip asciiLowers).find? (fun p => p.1 == u)).isSome = true := by decide
    have hcs := hs c hc
    rw [hf] at hcs
    simp at hcs
  · rw [hf]
    show p.2 ∉ asciiUppers
    have hmem : p ∈ asciiUppers.zip asciiLowers := List.mem_of_find?_eq_some hf
    have h2 : p.2 ∈ asciiLowers := by
      obtain ⟨a, b⟩ := p
      exact (List.of_mem_zip hmem).2
    have hd : ∀ v ∈ asciiLowers, v ∉ asciiUppers := by decide
    exact hd _ h2

theorem mem_jsTrim {c : Char} {l : List Char} (h : c ∈ jsTrim l) : c ∈ l := by
  unfold jsTrim at h
  rw [List.mem_reverse] at h
  have h1 := (List.dropWhile_sublist _).subset h
  rw [List.mem_reverse] at h1
  exact (List.dropWhile_sublist _).subset h1

theorem mem_wsRunsToHyphenAux {c : Char} (b : Bool) (l : List Char)
    (h : c ∈ wsRunsToHyphenAux b l) : c = '-' ∨ (c ∈ l ∧ isJsWs c = false) := by
  induction l generalizing b with
  | nil => simp [wsRunsToHyphenAux] at h
  | cons d rest ih =>
    simp only [wsRunsToHyphenAux] at h
    by_cases hd : isJsWs d
    · rw [if_pos hd] at h
      cases b with
      | true =>
        rcases ih true h with h1 | ⟨h2, h3⟩
        · exact Or.inl h1
        · exact Or.inr ⟨List.mem_cons_of_mem _ h2, h3⟩
      | false =>
        rcases List.mem_cons.1 h with rfl | h2
        · exact Or.inl rfl
        · rcases ih true h2 with h1 | ⟨h3, h4⟩
          · exact Or.inl h1
          · exact Or.inr ⟨List.mem_cons_of_mem _ h3, h4⟩
    · rw [if_neg hd] at h
      rcases List.mem_cons.1 h with rfl | h2
      · exact Or.inr ⟨List.mem_cons_self _ _, by simpa using hd⟩
      · rcases ih false h2 with h1 | ⟨h3, h4⟩
        · exact Or.inl h1
        · exact Or.inr ⟨List.mem_cons_of_mem _ h3, h4⟩

theorem mem_collapseHyphenRunsAux {c : Char} (b : Bool) (l : List Char)
    (h : c ∈ collapseHyphenRunsAux b l) : c ∈ l := by
  induction l generalizing b with
  | nil => simp [collapseHyphenRunsAux] at h
  | cons d rest ih =>
    simp only [collapseHyphenRunsAux] at h
    by_cases hd : d = '-'
    · rw [if_pos hd] at h
      cases b with
      | true => exact List.mem_cons_of_mem _ (ih true h)
      | false =>
        rcases List.mem_cons.1 h with rfl | h2
        · rw [hd]
          exact List.mem_cons_self _ _
        · exact List.mem_cons_of_mem _ (ih true h2)
    · rw [if_neg hd] at h
      rcases List.mem_cons.1 h with rfl | h2
      · exact List.mem_cons_self _ _
      · exact List.mem_cons_of_mem _ (ih false h2)

theorem head_collapseHyphenRunsAux_true (l : List Char) :
    (collapseHyphenRunsAux true l).head? ≠ some '-' := by
  induction l with
  | nil => simp [collapseHyphenRunsAux]
  | cons d rest ih =>
    simp only [collapseHyphenRunsAux]
    by_cases hd : d = '-'
    · rw [if_pos hd]
      simpa using ih
    · rw [if_neg hd]
      simp [hd]

theorem chain_collapseHyphenRunsAux (b : Bool) (l : List Char) :
    List.Chain' (fun x y => ¬(x = '-' ∧ y = '-')) (collapseHyphenRunsAux b l) := by
  induction l generalizing b with
  | nil => simp [collapseHyphenRunsAux]
  | cons d rest ih =>
    simp only [collapseHyphenRunsAux]
    by_cases hd : d = '-'
    · rw [if_pos hd]
      cases b with
      | true => simpa using ih true
      | false =>
        rw [if_neg (by simp : ¬(false = true)), List.chain'_cons']
        refine ⟨fun y hy hcon => ?_, ih true⟩
        rw [Option.mem_def] at hy
        rw [hcon.2] at hy
        exact head_collapseHyphenRunsAux_true rest hy
    · rw [if_neg hd, List.chain'_cons']
      exact ⟨fun y _ hcon => hd hcon.1, ih false⟩

theorem mem_dropLeadHyphen {c : Char} {l : List Char}
    (h : c ∈ dropLeadHyphen l) : c ∈ l := by
  cases l with
  | nil => simpa [dropLeadHyphen] using h
  | cons d rest =>
    simp only [dropLeadHyphen] at h
    by_cases hd : d = '-'
    · rw [if_pos hd] at h
      exact List.mem_cons_of_mem _ h
    · rw [if_neg hd] at h
      exact h

theorem chain_dropLeadHyphen {l : List Char} {R : Char → Char → Prop}
    (h : List.Chain' R l) : List.Chain' R (dropLeadHyphen l) := by
  cases l with
  | nil => simpa [dropLeadHyphen] using h
  | cons d rest =>
    simp only [dropLeadHyphen]
    by_cases hd : d = '-'
    · rw [if_pos hd]
      exact h.tail
    · rw [if_neg hd]
      exact h

theorem head_dropLeadHyphen {l : List Char}
    (h : List.Chain' (fun x y => ¬(x = '-' ∧ y = '-')) l) :
    (dropLeadHyphen l).head? ≠ some '-' := by
  cases l with
  | nil => simp [dropLeadHyphen]
  | cons d rest =>
    simp only [dropLeadHyphen]
    by_cases hd : d = '-'
    · rw [if_pos hd]
      cases rest with
      | nil => simp
      | cons e rest2 =>
        subst hd
        have hR := (List.chain'_cons.1 h).1
        simp only [List.head?_cons, ne_eq, Option.some.injEq]
        intro he
        exact hR ⟨rfl, he⟩
    · rw [if_neg hd]
      simp [hd]

theorem getLast_dropLeadHyphen {l : List Char} (h : l.getLast? ≠ some '-') :
    (dropLeadHyphen l).getLast? ≠ some '-' := by
  cases l with
  | nil => simpa [dropLeadHyphen] using h
  | cons d rest =>
    simp only [dropLeadHyphen]
    by_cases hd : d = '-'
    · rw [if_pos hd]
      cases rest with
      | nil => simp
      | cons e rest2 =>
        rw [List.getLast?_cons_cons] at h
        exact h
    · rw [if_neg hd]
      exact h

theorem chain_noDoubleHyphen_reverse {l : List Char}
    (h : List.Chain' (fun x y => ¬(x = '-' ∧ y = '-')) l) :
    List.Chain' (fun x y => ¬(x = '-' ∧ y = '-')) l.reverse := by
  rw [List.chain'_reverse]
  exact h.imp (fun a b hab hcon => hab ⟨hcon.2, hcon.1⟩)

theorem mem_stripEdgeHyphens {c : Char} {l : List Char}
    (h : c ∈ stripEdgeHyphens l) : c ∈ l := by
  unfold stripEdgeHyphens at h
  rw [List.mem_reverse] at h
  have h1 := mem_dropLeadHyphen h
  rw [List.mem_reverse] at h1
  exact mem_dropLeadHyphen h1

theorem stripEdgeHyphens_wf {l : List Char}
    (h : List.Chain' (fun x y => ¬(x = '-' ∧ y = '-')) l) :
    (stripEdgeHyphens l).head? ≠ some '-'
    ∧ (stripEdgeHyphens l).getLast? ≠ some '-'
    ∧ List.Chain' (fun x y => ¬(x = '-' ∧ y = '-')) (stripEdgeHyphens l) := by
  unfold stripEdgeHyphens
  have h1chain := chain_dropLeadHyphen (l := l) h
  have h1head := head_dropLeadHyphen h
  have h2chain := chain_noDoubleHyphen_reverse h1chain
  have h2last : (dropLeadHyphen l).reverse.getLast? ≠ some '-' := by
    rw [List.getLast?_reverse]
    exact h1head
  have h3chain := chain_dropLeadHyphen h2chain
  have h3head := head_dropLeadHyphen h2chain
  have h3last := getLast_dropLeadHyphen h2last
  refine ⟨?_, ?_, ?_⟩
  · rw [List.head?_reverse]
    exact h3last
  · rw [List.getLast?_reverse]
    exact h3head
  · exact chain_noDoubleHyphen_reverse h3chain

theorem generateSlug_wf (n : String) :
    (∀ c ∈ (generateSlug n).data,
        c ∈ asciiLowers ∨ c ∈ digitChars ∨ c = '_' ∨ c = '-')
    ∧ (generateSlug n).data.head? ≠ some '-'
    ∧ (generateSlug n).data.getLast? ≠ some '-'
    ∧ List.Chain' (fun x y => ¬(x = '-' ∧ y = '-')) (generateSlug n).data := by
  have hdata : (generateSlug n).data
      = stripEdgeHyphens (collapseHyphenRuns (wsRunsToHyphen (removeNonSlugChars
          (jsTrim (n.data.map jsToLower))))) := rfl
  have hchain : List.Chain' (fun x y => ¬(x = '-' ∧ y = '-'))
      (collapseHyphenRuns (wsRunsToHyphen (removeNonSlugChars
        (jsTrim (n.data.map jsToLower))))) :=
    chain_collapseHyphenRunsAux false _
  obtain ⟨hh, hl, hc⟩ := stripEdgeHyphens_wf hchain
  refine ⟨?_, by rw [hdata]; exact hh, by rw [hdata]; exact hl, by rw [hdata]; exact hc⟩
  intro c hcm
  rw [hdata] at hcm
  have h1 := mem_collapseHyphenRunsAux false _ (mem_stripEdgeHyphens hcm)
  rcases mem_wsRunsToHyphenAux false _ h1 with rfl | ⟨h2, h3⟩
  · exact Or.inr (Or.inr (Or.inr rfl))
  · rw [removeNonSlugChars, List.mem_filter] at h2
    obtain ⟨h4, h5⟩ := h2
    have h6 := mem_jsTrim h4
    rw [List.mem_map] at h6
    obtain ⟨x, _, rfl⟩ := h6
    have hnotup := jsToLower_not_upper x
    simp only [Bool.or_eq_true, beq_iff_eq] at h5
    rcases h5 with (hw | hws) | hhy
    · simp only [isWordChar, Bool.or_eq_true, beq_iff_eq] at hw
      rcases hw with ((hu | hlo) | hdig) | hun
      · exact absurd (by simpa using hu) hnotup
      · exact Or.inl (by simpa using hlo)
      · exact Or.inr (Or.inl (by simpa using hdig))
      · exact Or.inr (Or.inr (Or.inl hun))
    · rw [h3] at hws
      cases hws
    · exact Or.inr (Or.inr (Or.inr hhy))

theorem productCreate_slug_of_ok {s : PState} {freshId : String}
    {data : CreateProductBody} {n : String} {p : Product}
    (hslug : data.slug = none) (hname : data.name = some n)
    (hok : (productCreate s freshId data).2 = .ok p) :
    p.slug = generateSlug n ∧ p ∈ (productCreate s freshId data).1.store := by
  simp only [productCreate, hslug, hname] at hok ⊢
  by_cases h1 : s.store.any (fun q => q.slug == generateSlug n) = true
  · rw [if_pos h1] at hok
    exact absurd hok (by simp)
  · rw [if_neg h1] at hok ⊢
    by_cases h2 : s.store.any (fun q => q.name == n) = true
    · rw [if_pos h2] at hok
      exact absurd hok (by simp)
    · rw [if_neg h2] at hok ⊢
      simp only [Except.ok.injEq] at hok
      subst hok
      exact ⟨rfl, List.mem_append_right _ (List.mem_singleton_self _)⟩

/-- **C8** (corrected).  On `ProductService.create` with `data.slug` absent
and `data.name` present, the stored product's slug is exactly
`generateSlug name`; and for every name the derived slug contains only
lowercase ASCII letters, digits, underscores and hyphens, never starts or
ends with a hyphen, and never holds two adjacent hyphens.  (The claim's
"only lowercase alphanumerics and single interior hyphens" is refuted by
the underscore, which JS regex `\w` keeps: see the counterexample.) -/
theorem slug_generation_wellformed :
    (∀ (s : PState) (freshId : String) (data : CreateProductBody)
        (n : String) (p : Product),
        data.slug = none → data.name = some n →
        (productCreate s freshId data).2 = .ok p →
        p.slug = generateSlug n ∧ p ∈ (productCreate s freshId data).1.store)
    ∧ (∀ n : String,
        (∀ c ∈ (generateSlug n).data,
            c ∈ asciiLowers ∨ c ∈ digitChars ∨ c = '_' ∨ c = '-')
        ∧ (generateSlug n).data.head? ≠ some '-'
        ∧ (generateSlug n).data.getLast? ≠ some '-'
        ∧ List.Chain' (fun x y => ¬(x = '-' ∧ y = '-')) (generateSlug n).data) :=
  ⟨fun _ _ _ _ _ h1 h2 h3 => productCreate_slug_of_ok h1 h2 h3, generateSlug_wf⟩

/-- Concrete run of the amended C8 theorem: creating a product named
"Hello, World!" with no slug stores it with slug
`generateSlug "Hello, World!"` (= "hello-world"). -/
theorem slug_generation_wellformed_witness :
    ({ name := some "Hello, World!" } : CreateProductBody).slug = none
    ∧ ((⟨"dddddddddddddddddddddddd", "Hello, World!", "", "hello-world",
          "", "", false, true, [], [], []⟩ : Product).slug
        = generateSlug "Hello, World!"
      ∧ (⟨"dddddddddddddddddddddddd", "Hello, World!", "", "hello-world",
          "", "", false, true, [], [], []⟩ : Product)
        ∈ (productCreate ⟨[], []⟩ "dddddddddddddddddddddddd"
            { name := some "Hello, World!" }).1.store) :=
  ⟨rfl,
   slug_generation_wellformed.1 ⟨[], []⟩ "dddddddddddddddddddddddd"
     { name := some "Hello, World!" } "Hello, World!"
     ⟨"dddddddddddddddddddddddd", "Hello, World!", "", "hello-world",
      "", "", false, true, [], [], []⟩ rfl rfl (by decide)⟩

/-- C8 counterexample: the name "a_b" yields the stored slug "a_b" (JS
`\w` keeps the underscore), while the spec-worded transform — collapse
every non-alphanumeric run to a hyphen — yields "a-b"; the derived slug
is not made of lowercase alphanumerics and hyphens alone. -/
theorem generateSlug_underscore_differs :
    generateSlug "a_b" = "a_b"
    ∧ slugSpecTransform "a_b" = "a-b"
    ∧ (productCreate ⟨[], []⟩ "dddddddddddddddddddddddd"
        { name := some "a_b" }).1.store.map (fun p => p.slug) = ["a_b"] :=
  ⟨rfl, rfl, rfl⟩

end EcoSpec
